import Mathlib

/-!
# fo-htdigest-go: the digest password file rewrite

A shallow embedding of `src/cmd/fo-htdigest/htdigest-go.go`.

Go strings and byte slices are lists of bytes, each byte a natural number
(`0 .. 255`).  The standard-library functions the program calls
(`bufio.Scanner` with `bufio.ScanLines`, `io.LimitReader`, `strings.Split`,
the UTF-8 decoding of `for range`, `encoding/hex`, `crypto/md5`) are given as
executable definitions next to the functions of the program itself.
-/

namespace Htdigest

/-- A Go `string` or `[]byte`: its bytes in order. -/
abbrev Bytes := List Nat

/-- The bytes of an ASCII literal. -/
def ascii (s : String) : Bytes := s.toList.map Char.toNat

/-- Constant `MAX_STRING_LEN` of the program. -/
def MAX_STRING_LEN : Nat := 256

/-- Constant `MAX_LINE_LEN` of the program. -/
def MAX_LINE_LEN : Nat := 768

/-- Go `bufio.MaxScanTokenSize`: the size of the largest buffer a `Scanner` allocates. -/
def maxScanTokenSize : Nat := 65536

/-! ## Readers -/

/-- An `io.Reader` as the program sees it: the bytes it yields, then either a
plain end of input (`err = none`) or a read error (`err = some code`).  The end
is reported by a read of its own, as `*os.File` does. -/
structure Reader where
  data : Bytes
  err : Option Nat
deriving DecidableEq, Repr

/-- Go `io.LimitReader r n`: at most `n` bytes of `r`; once `n` bytes are
delivered the next read is a plain end of input and `r` is not asked again. -/
def limitReader (r : Reader) (n : Nat) : Reader :=
  if n ≤ r.data.length then { data := r.data.take n, err := none } else r

/-! ## strings.Split and bufio.ScanLines -/

/-- The pieces of `s` between the occurrences of the byte `sep`; as
`strings.Split s (string sep)`: `k` separators give `k + 1` pieces, and the
empty string gives one empty piece. -/
def splitByte (sep : Nat) : Bytes → List Bytes
  | [] => [[]]
  | c :: cs =>
    if c = sep then [] :: splitByte sep cs
    else
      match splitByte sep cs with
      | [] => [[c]]
      | p :: ps => (c :: p) :: ps

/-- Go `strings.Split line ":"`. -/
def splitColon (line : Bytes) : List Bytes := splitByte 58 line

/-- Go `bufio.dropCR`: one trailing carriage return is removed. -/
def dropCR (data : Bytes) : Bytes :=
  if data.getLast? = some 13 then data.dropLast else data

/-- The raw lines a `Scanner` with `ScanLines` sees in `data`: the pieces
between newlines, where a final piece that is empty (the data is empty or ends
in a newline) is no line. -/
def rawLines (data : Bytes) : List Bytes :=
  let pieces := splitByte 10 data
  if pieces.getLast? = some [] then pieces.dropLast else pieces

/-- The tokens delivered from the raw lines in order: a raw line that does not
fit the scanner's buffer (`maxScanTokenSize` bytes or more) stops the scan
with `ErrTooLong` (`true`); the others are delivered with `dropCR` applied. -/
def scanTokens : List Bytes → List Bytes × Bool
  | [] => ([], false)
  | raw :: rest =>
    if maxScanTokenSize ≤ raw.length then ([], true)
    else ((dropCR raw) :: (scanTokens rest).1, (scanTokens rest).2)

/-! ## UTF-8 decoding of `for _, c := range text` -/

/-- Go `utf8.RuneError`. -/
def runeError : Nat := 0xFFFD

/-- A continuation byte `0x80 .. 0xBF` restricted to `lo .. hi`. -/
def inRange (lo hi b : Nat) : Bool := decide (lo ≤ b) && decide (b ≤ hi)

/-- Go `utf8.DecodeRuneInString` at a non-empty string `s0 :: rest`: the code
point and the number of bytes it takes.  The bit operations of the original
(`s0 & mask << 6 | s1 & 0x3F`) are written with `%`, `*` and `+`. -/
def decodeRune (s0 : Nat) (rest : Bytes) : Nat × Nat :=
  if s0 < 0x80 then (s0, 1)
  else if s0 < 0xC2 then (runeError, 1)
  else if s0 < 0xE0 then
    match rest with
    | s1 :: _ =>
      if inRange 0x80 0xBF s1 then ((s0 % 32) * 64 + s1 % 64, 2) else (runeError, 1)
    | _ => (runeError, 1)
  else if s0 < 0xF0 then
    let lo := if s0 = 0xE0 then 0xA0 else 0x80
    let hi := if s0 = 0xED then 0x9F else 0xBF
    match rest with
    | s1 :: s2 :: _ =>
      if inRange lo hi s1 && inRange 0x80 0xBF s2 then
        ((s0 % 16) * 4096 + (s1 % 64) * 64 + s2 % 64, 3)
      else (runeError, 1)
    | _ => (runeError, 1)
  else if s0 < 0xF5 then
    let lo := if s0 = 0xF0 then 0x90 else 0x80
    let hi := if s0 = 0xF4 then 0x8F else 0xBF
    match rest with
    | s1 :: s2 :: s3 :: _ =>
      if inRange lo hi s1 && inRange 0x80 0xBF s2 && inRange 0x80 0xBF s3 then
        ((s0 % 8) * 262144 + (s1 % 64) * 4096 + (s2 % 64) * 64 + s3 % 64, 4)
      else (runeError, 1)
    | _ => (runeError, 1)
  else (runeError, 1)

/-- The code points `for _, c := range text` visits, in order.  `skip` counts
the bytes still belonging to the code point decoded last. -/
def rangeRunes : Nat → Bytes → List Nat
  | _, [] => []
  | 0, b :: bs => (decodeRune b bs).1 :: rangeRunes ((decodeRune b bs).2 - 1) bs
  | k + 1, _ :: bs => rangeRunes k bs

/-! ## encoding/hex and crypto/md5 -/

/-- Go `hextable = "0123456789abcdef"`, indexed by a nibble. -/
def hexDigit (n : Nat) : Nat := if n < 10 then 48 + n else 87 + n

/-- Go `hex.EncodeToString`: two lowercase digits per byte, high nibble first. -/
def hexEncode : Bytes → Bytes
  | [] => []
  | b :: bs => hexDigit (b / 16 % 16) :: hexDigit (b % 16) :: hexEncode bs

/-- Per-round left rotations of MD5 (RFC 1321). -/
def md5Shifts : List Nat :=
  [7, 12, 17, 22, 7, 12, 17, 22, 7, 12, 17, 22, 7, 12, 17, 22,
   5, 9, 14, 20, 5, 9, 14, 20, 5, 9, 14, 20, 5, 9, 14, 20,
   4, 11, 16, 23, 4, 11, 16, 23, 4, 11, 16, 23, 4, 11, 16, 23,
   6, 10, 15, 21, 6, 10, 15, 21, 6, 10, 15, 21, 6, 10, 15, 21]

/-- The sine table of MD5 (RFC 1321). -/
def md5Table : List Nat :=
  [0xd76aa478, 0xe8c7b756, 0x242070db, 0xc1bdceee, 0xf57c0faf, 0x4787c62a, 0xa8304613, 0xfd469501,
   0x698098d8, 0x8b44f7af, 0xffff5bb1, 0x895cd7be, 0x6b901122, 0xfd987193, 0xa679438e, 0x49b40821,
   0xf61e2562, 0xc040b340, 0x265e5a51, 0xe9b6c7aa, 0xd62f105d, 0x02441453, 0xd8a1e681, 0xe7d3fbc8,
   0x21e1cde6, 0xc33707d6, 0xf4d50d87, 0x455a14ed, 0xa9e3e905, 0xfcefa3f8, 0x676f02d9, 0x8d2a4c8a,
   0xfffa3942, 0x8771f681, 0x6d9d6122, 0xfde5380c, 0xa4beea44, 0x4bdecfa9, 0xf6bb4b60, 0xbebfbc70,
   0x289b7ec6, 0xeaa127fa, 0xd4ef3085, 0x04881d05, 0xd9d4d039, 0xe6db99e5, 0x1fa27cf8, 0xc4ac5665,
   0xf4292244, 0x432aff97, 0xab9423a7, 0xfc93a039, 0x655b59c3, 0x8f0ccc92, 0xffeff47d, 0x85845dd1,
   0x6fa87e4f, 0xfe2ce6e0, 0xa3014314, 0x4e0811a1, 0xf7537e82, 0xbd3af235, 0x2ad7d2bb, 0xeb86d391]

/-- Rotation of a 32-bit word to the left. -/
def rotl32 (x s : Nat) : Nat := ((x <<< s) ||| (x >>> (32 - s))) % 2 ^ 32

/-- Complement of a 32-bit word. -/
def not32 (x : Nat) : Nat := x ^^^ 0xFFFFFFFF

/-- The four bytes of a 32-bit word, least significant first. -/
def le32 (x : Nat) : Bytes := [x % 256, x / 256 % 256, x / 65536 % 256, x / 16777216 % 256]

/-- The 32-bit words of a block, each from four bytes, least significant first. -/
def leWords : Bytes → List Nat
  | b0 :: b1 :: b2 :: b3 :: rest => (b0 + 256 * b1 + 65536 * b2 + 16777216 * b3) :: leWords rest
  | _ => []

/-- The padding of MD5: a `0x80` byte, zero bytes up to 56 modulo 64, and the
bit length of the message in 8 bytes, least significant first. -/
def md5Pad (msg : Bytes) : Bytes :=
  msg ++ [0x80] ++ List.replicate ((119 - msg.length % 64) % 64) 0
    ++ le32 (8 * msg.length % 2 ^ 32) ++ le32 (8 * msg.length / 2 ^ 32 % 2 ^ 32)

/-- The state of MD5: the words A, B, C, D. -/
structure Md5State where
  a : Nat
  b : Nat
  c : Nat
  d : Nat
deriving DecidableEq, Repr

/-- One of the 64 operations of MD5 on the block with words `m`. -/
def md5Op (m : List Nat) (st : Md5State) (i : Nat) : Md5State :=
  let f :=
    if i < 16 then (st.b &&& st.c) ||| (not32 st.b &&& st.d)
    else if i < 32 then (st.d &&& st.b) ||| (not32 st.d &&& st.c)
    else if i < 48 then st.b ^^^ st.c ^^^ st.d
    else st.c ^^^ (st.b ||| not32 st.d)
  let g :=
    if i < 16 then i
    else if i < 32 then (5 * i + 1) % 16
    else if i < 48 then (3 * i + 5) % 16
    else 7 * i % 16
  let t := (f + st.a + md5Table.getD i 0 + m.getD g 0) % 2 ^ 32
  { a := st.d, b := (st.b + rotl32 t (md5Shifts.getD i 0)) % 2 ^ 32, c := st.b, d := st.c }

/-- The compression of one 64-byte block into the state. -/
def md5Block (st : Md5State) (block : Bytes) : Md5State :=
  let r := (List.range 64).foldl (md5Op (leWords block)) st
  { a := (st.a + r.a) % 2 ^ 32, b := (st.b + r.b) % 2 ^ 32,
    c := (st.c + r.c) % 2 ^ 32, d := (st.d + r.d) % 2 ^ 32 }

/-- The 64-byte blocks of a padded message. -/
def md5Blocks (padded : Bytes) : List Bytes :=
  (List.range (padded.length / 64)).map (fun i => (padded.drop (64 * i)).take 64)

/-- Go `md5.New(); h.Write(msg); h.Sum(nil)`: the 16 bytes of the MD5 digest. -/
def md5 (msg : Bytes) : Bytes :=
  let st := (md5Blocks (md5Pad msg)).foldl md5Block
    { a := 0x67452301, b := 0xefcdab89, c := 0x98badcfe, d := 0x10325476 }
  le32 st.a ++ le32 st.b ++ le32 st.c ++ le32 st.d

/-! ## Outcomes and diagnostics -/

deriving instance DecidableEq for Except

/-- The argument that `makeHash` rejects. -/
inductive Field where
  | user
  | realm
  | password
deriving DecidableEq, Repr

/-- The ways a run ends other than with a nil error. -/
inductive Failure where
  /-- The error of the underlying reader, as `Scanner.Err` reports it. -/
  | readError (code : Nat)
  /-- Go `bufio.ErrTooLong`. -/
  | tokenTooLong
  /-- The error "detect EOF of reader while reading line". -/
  | detectEOF
  /-- The error "the line contains a string longer than the allowed maximum size (255)". -/
  | lengthViolation
  /-- The call `log.Fatal("... includes non ASCII character")`: the process exits with status 1. -/
  | fatal (field : Field)
deriving DecidableEq, Repr

/-- What the program prints on the error stream, by kind of message. -/
inductive Diag where
  /-- A fixed text. -/
  | text (msg : String)
  /-- The call `log.Println(c)` of a code point. -/
  | rune (c : Nat)
  /-- The call `log.Println(s)` of a string value. -/
  | value (s : Bytes)
  /-- An error or fatal message printed through the logger. -/
  | failure (e : Failure)
  /-- The line "Changing password for ..." (`true`) or "Adding password for ..." (`false`). -/
  | announce (change : Bool) (user realm : Bytes)
deriving DecidableEq, Repr

/-- The effect of a function that writes lines to an `io.Writer`: the
arguments of its `fmt.Fprintln` calls in order, its diagnostics in order, and
the error it ends with (`none` for nil). -/
structure Run where
  out : List Bytes
  log : List Diag
  err : Option Failure
deriving DecidableEq, Repr

/-- The effect of `putline line` followed by the effect `q`. -/
def Run.putline (line : Bytes) (q : Run) : Run :=
  { out := line :: q.out, log := q.log, err := q.err }

/-- The effect `p` followed by the effect `q`. -/
def Run.andThen (p q : Run) : Run :=
  { out := p.out ++ q.out, log := p.log ++ q.log, err := q.err }

/-- The bytes that `fmt.Fprintln` calls with the given arguments leave in a file. -/
def fileContent : List Bytes → Bytes
  | [] => []
  | l :: ls => l ++ 10 :: fileContent ls

/-! ## The program -/

/-- A `bufio.Scanner` with the default split function, after all its input is
known: the tokens `Scan`/`Text` deliver in order and the value `Err` has once
`Scan` returned false. -/
structure Scanner where
  tokens : List Bytes
  err : Option Failure
deriving DecidableEq, Repr

/-- Go `bufio.NewScanner r`. -/
def newScanner (r : Reader) : Scanner :=
  { tokens := (scanTokens (rawLines r.data)).1,
    err := if (scanTokens (rawLines r.data)).2 then some Failure.tokenTooLong
           else r.err.map Failure.readError }

/-- Function `readLineChannelByScanner`: the diagnostics and the
`ReadLineChanResult` it sends on the channel. -/
def readLineChannelByScanner (r : Reader) : List Diag × Except Failure Bytes :=
  let sc := newScanner (limitReader r MAX_LINE_LEN)
  match sc.tokens with
  | line :: _ => ([], Except.ok line)
  | [] =>
    match sc.err with
    | some e => ([Diag.failure e], Except.error e)
    | none => ([], Except.error Failure.detectEOF)

/-- The loop of `onlyPrintableAscii` over the code points of the text:
`Except.error c` is the error returned after `log.Println(c)`. -/
def checkRunes : List Nat → Except Nat Unit
  | [] => Except.ok ()
  | c :: cs => if c < 0x20 ∨ 0x7E < c then Except.error c else checkRunes cs

/-- Function `onlyPrintableAscii`. -/
def onlyPrintableAscii (text : Bytes) : Except Nat Unit :=
  checkRunes (rangeRunes 0 text)

/-- Function `makeHash`: its diagnostics, and the record line or the fatal exit. -/
def makeHash (user realm password : Bytes) : List Diag × Except Failure Bytes :=
  match onlyPrintableAscii user with
  | Except.error c =>
    ([Diag.rune c, Diag.failure (Failure.fatal Field.user)], Except.error (Failure.fatal Field.user))
  | Except.ok _ =>
    match onlyPrintableAscii realm with
    | Except.error c =>
      ([Diag.rune c, Diag.failure (Failure.fatal Field.realm)],
        Except.error (Failure.fatal Field.realm))
    | Except.ok _ =>
      match onlyPrintableAscii password with
      | Except.error c =>
        ([Diag.rune c, Diag.failure (Failure.fatal Field.password)],
          Except.error (Failure.fatal Field.password))
      | Except.ok _ =>
        let pre := user ++ 58 :: (realm ++ [58])
        ([], Except.ok (pre ++ hexEncode (md5 (pre ++ password))))

/-- Function `addPassword`, with `os.Stdin` as the argument `stdin`. -/
def addPassword (user realm : Bytes) (stdin : Reader) : Run :=
  match readLineChannelByScanner stdin with
  | (l, Except.error e) =>
    { out := [],
      log := Diag.text "TODO: Add Retype password feature" :: (l ++ [Diag.failure e]),
      err := some e }
  | (l, Except.ok password) =>
    let said := Diag.text "TODO: Add Retype password feature" ::
      (l ++ [Diag.value password, Diag.value (hexEncode password)])
    match makeHash user realm password with
    | (l2, Except.error e) => { out := [], log := said ++ l2, err := some e }
    | (l2, Except.ok line) => { out := [line], log := said ++ l2, err := none }

/-- The loop of `updateTempPasswordFile` over the lines still to scan, with the
flag `found`, followed by the code after the loop. -/
def updateLoop (stdin : Reader) (user realm : Bytes) (scanErr : Option Failure) :
    Bool → List Bytes → Run
  | found, [] =>
    match scanErr with
    | some e => { out := [], log := [], err := some e }
    | none =>
      if found then { out := [], log := [], err := none }
      else
        Run.andThen { out := [], log := [Diag.announce false user realm], err := none }
          (addPassword user realm stdin)
  | found, line :: rest =>
    if found = true ∨ line = [] ∨ line.head? = some 35 then
      Run.putline line (updateLoop stdin user realm scanErr found rest)
    else if (splitColon line).length < 3 then
      Run.putline line (updateLoop stdin user realm scanErr found rest)
    else if ((splitColon line).getD 0 []).length > MAX_STRING_LEN - 1
        ∨ ((splitColon line).getD 1 []).length > MAX_STRING_LEN - 1 then
      { out := [], log := [], err := some Failure.lengthViolation }
    else if (splitColon line).getD 0 [] ≠ user ∨ (splitColon line).getD 1 [] ≠ realm then
      Run.putline line (updateLoop stdin user realm scanErr found rest)
    else
      let p := Run.andThen { out := [], log := [Diag.announce true user realm], err := none }
        (addPassword user realm stdin)
      if p.err.isSome then p
      else Run.andThen p (updateLoop stdin user realm scanErr true rest)

/-- Function `updateTempPasswordFile`: `f` is the file read, `stdin` is
`os.Stdin`, and the lines of the result are those written to `tfp`. -/
def updateTempPasswordFile (f : Reader) (stdin : Reader) (user realm : Bytes) : Run :=
  updateLoop stdin user realm (newScanner f).err false (newScanner f).tokens

/-- What the operating system does with the calls of `main` that can fail. -/
structure Env where
  /-- The call `os.Create(pwFile)` succeeds. -/
  createOk : Bool
  /-- The call `os.TempDir()` gives a non-empty name. -/
  tempDirOk : Bool
  /-- The call `os.CreateTemp` succeeds. -/
  tempOk : Bool
  /-- An existing password file can be opened for reading. -/
  openOk : Bool
  /-- The error, if any, that ends the reading of the password file. -/
  readErr : Option Nat
  /-- The call `os.ReadFile(tfn)` succeeds. -/
  readBackOk : Bool
  /-- The call `os.WriteFile(pwFile, b, 0644)` succeeds; when it fails the file is left as it was. -/
  writeOk : Bool
deriving DecidableEq, Repr

/-- An operating system on which no call fails. -/
def Env.allOk : Env :=
  { createOk := true, tempDirOk := true, tempOk := true, openOk := true,
    readErr := none, readBackOk := true, writeOk := true }

/-- The state in which the process ends: its exit status, the content of the
password file (`none`: no such file), the content of the temporary file
(`none`: no such file), and the error stream. -/
structure Final where
  code : Nat
  target : Option Bytes
  temp : Option Bytes
  log : List Diag
deriving DecidableEq, Repr

/-- Function `usage`. -/
def usage (target : Option Bytes) : Final :=
  { code := 1, target := target, temp := none, log := [Diag.text "Usage"] }

/-- Function `main`, on the arguments `args` (`os.Args`), the standard input
`stdin` and the password file content `target` found at the start. -/
def main (env : Env) (args : List Bytes) (stdin : Reader) (target : Option Bytes) : Final :=
  if args.length = 5 then
    if args.getD 1 [] ≠ ascii "-c" then usage target
    else if env.createOk = false then
      { code := 1, target := target, temp := none, log := [Diag.text "Could not open passwd file"] }
    else
      let p := addPassword (args.getD 4 []) (args.getD 3 []) stdin
      { code := if p.err.isSome then 1 else 0,
        target := some (fileContent p.out),
        temp := none,
        log := Diag.announce false (args.getD 4 []) (args.getD 3 []) :: (p.log ++
          (match p.err with
           | some (Failure.fatal _) => []
           | some e => [Diag.failure e]
           | none => [])) }
  else if args.length ≠ 4 then usage target
  else if env.tempDirOk = false then
    { code := 1, target := target, temp := none, log := [Diag.text "could not determine temp dir"] }
  else if env.tempOk = false then
    { code := 1, target := target, temp := none, log := [Diag.text "Could not open temp file"] }
  else
    match (if env.openOk then target else none) with
    | none =>
      { code := 1, target := target, temp := some [],
        log := [Diag.text "Could not open passwd file for reading.",
                Diag.text "Use -c option to create new one."] }
    | some content =>
      let p := updateTempPasswordFile { data := content, err := env.readErr } stdin
        (args.getD 3 []) (args.getD 2 [])
      match p.err with
      | some (Failure.fatal _) =>
        { code := 1, target := target, temp := some (fileContent p.out), log := p.log }
      | some e =>
        { code := 1, target := target, temp := some (fileContent p.out),
          log := p.log ++ [Diag.failure e] }
      | none =>
        if env.readBackOk = false then
          { code := 1, target := target, temp := some (fileContent p.out),
            log := p.log ++ [Diag.text "unable to update file"] }
        else if env.writeOk = false then
          { code := 1, target := target, temp := some (fileContent p.out),
            log := p.log ++ [Diag.text "unable to update file"] }
        else
          { code := 0, target := some (fileContent p.out), temp := none, log := p.log }

/-! ## The words of the specification -/

/-- Every byte of the text is printable ASCII, `0x20 .. 0x7E`. -/
def Printable (text : Bytes) : Prop := ∀ b ∈ text, 0x20 ≤ b ∧ b ≤ 0x7E

instance (text : Bytes) : Decidable (Printable text) := by
  unfold Printable; infer_instance

/-- Some code point of the text lies below `0x20` or above `0x7E`. -/
def HasBadChar (text : Bytes) : Prop := ∃ c ∈ rangeRunes 0 text, c < 0x20 ∨ 0x7E < c

instance (text : Bytes) : Decidable (HasBadChar text) := by
  unfold HasBadChar; infer_instance

/-- A record for the target: the line is non-empty, does not start with `#`,
splits on `:` into at least 3 fields, and its first two fields are `user` and
`realm`. -/
def IsRecordFor (user realm line : Bytes) : Prop :=
  line ≠ [] ∧ line.head? ≠ some 35 ∧ 3 ≤ (splitColon line).length
    ∧ (splitColon line).getD 0 [] = user ∧ (splitColon line).getD 1 [] = realm

instance (user realm line : Bytes) : Decidable (IsRecordFor user realm line) := by
  unfold IsRecordFor; infer_instance

/-- A line whose first or second field is longer than 255 bytes: the line is
non-empty, does not start with `#`, and splits on `:` into at least 3 fields. -/
def HasLongField (line : Bytes) : Prop :=
  line ≠ [] ∧ line.head? ≠ some 35 ∧ 3 ≤ (splitColon line).length
    ∧ (255 < ((splitColon line).getD 0 []).length ∨ 255 < ((splitColon line).getD 1 []).length)

instance (line : Bytes) : Decidable (HasLongField line) := by
  unfold HasLongField; infer_instance

/-- A comment (starts with `#`), a blank line, or a malformed line (fewer than
3 colon-delimited fields). -/
def IsPassThrough (line : Bytes) : Prop :=
  line.head? = some 35 ∨ line = [] ∨ (splitColon line).length < 3

instance (line : Bytes) : Decidable (IsPassThrough line) := by
  unfold IsPassThrough; infer_instance

/-- The user, the realm or the secret read from `stdin` has a code point
outside `0x20 .. 0x7E`. -/
def BadInput (user realm : Bytes) (stdin : Reader) : Prop :=
  HasBadChar user ∨ HasBadChar realm
    ∨ ∃ s, (readLineChannelByScanner stdin).2 = Except.ok s ∧ HasBadChar s

/-- The first line of a stream: all bytes before the first newline, or the
whole stream if it has no newline. -/
def firstLine (data : Bytes) : Bytes := data.takeWhile (fun b => decide (b ≠ 10))


/-! ## Lemmas: splitting -/

theorem splitByte_ne_nil (sep : Nat) (s : Bytes) : splitByte sep s ≠ [] := by
  induction s with
  | nil => simp [splitByte]
  | cons c cs ih =>
    unfold splitByte
    split
    · simp
    · split <;> simp

theorem splitByte_of_not_mem (sep : Nat) (s : Bytes) (h : sep ∉ s) : splitByte sep s = [s] := by
  induction s with
  | nil => simp [splitByte]
  | cons c cs ih =>
    simp only [List.mem_cons, not_or] at h
    have hc : c ≠ sep := fun e => h.1 e.symm
    rw [splitByte, if_neg hc, ih h.2]

theorem splitByte_append (sep : Nat) (a b : Bytes) (h : sep ∉ a) :
    splitByte sep (a ++ sep :: b) = a :: splitByte sep b := by
  induction a with
  | nil => simp [splitByte]
  | cons c cs ih =>
    simp only [List.mem_cons, not_or] at h
    have hc : c ≠ sep := fun e => h.1 e.symm
    rw [List.cons_append, splitByte, if_neg hc, ih h.2]

theorem splitByte_head (sep : Nat) (s : Bytes) :
    (splitByte sep s).head? = some (s.takeWhile (fun b => decide (b ≠ sep))) := by
  induction s with
  | nil => simp [splitByte]
  | cons c cs ih =>
    unfold splitByte
    by_cases hc : c = sep
    · simp [hc]
    · rw [if_neg hc]
      cases hs : splitByte sep cs with
      | nil => exact absurd hs (splitByte_ne_nil sep cs)
      | cons p ps =>
        rw [hs] at ih
        simp only [List.head?_cons, Option.some.injEq] at ih
        simp [hc, ih]

/-! ## Lemmas: printable text -/

theorem decodeRune_ascii (b : Nat) (bs : Bytes) (h : b < 0x80) : decodeRune b bs = (b, 1) := by
  simp [decodeRune, h]

theorem decodeRune_high (b : Nat) (bs : Bytes) (h : 0x80 ≤ b) : 0x80 ≤ (decodeRune b bs).1 := by
  unfold decodeRune
  simp only [inRange, runeError, Bool.and_eq_true, decide_eq_true_eq]
  split_ifs <;> (try split) <;> (try split_ifs) <;> simp only [] <;> omega

theorem rangeRunes_printable (text : Bytes) (h : Printable text) : rangeRunes 0 text = text := by
  induction text with
  | nil => rfl
  | cons b bs ih =>
    have hb : b < 0x80 := by
      have := h b (List.mem_cons_self _ _)
      omega
    have hbs : Printable bs := fun x hx => h x (List.mem_cons_of_mem _ hx)
    rw [rangeRunes, decodeRune_ascii b bs hb]
    simp [ih hbs]

theorem checkRunes_ok_iff (cs : List Nat) :
    checkRunes cs = Except.ok () ↔ ∀ c ∈ cs, 0x20 ≤ c ∧ c ≤ 0x7E := by
  induction cs with
  | nil => simp [checkRunes]
  | cons c cs ih =>
    unfold checkRunes
    by_cases hc : c < 0x20 ∨ 0x7E < c
    · rw [if_pos hc]
      simp only [List.mem_cons, forall_eq_or_imp, false_iff, not_and, reduceCtorEq]
      intro h1
      omega
    · rw [if_neg hc, ih]
      simp only [List.mem_cons, forall_eq_or_imp]
      constructor
      · intro h
        exact ⟨by omega, h⟩
      · intro h
        exact h.2

theorem checkRunes_error_iff (cs : List Nat) :
    (∃ c, checkRunes cs = Except.error c) ↔ ∃ c ∈ cs, c < 0x20 ∨ 0x7E < c := by
  induction cs with
  | nil => simp [checkRunes]
  | cons c cs ih =>
    unfold checkRunes
    by_cases hc : c < 0x20 ∨ 0x7E < c
    · rw [if_pos hc]
      simp only [List.mem_cons, exists_eq_or_imp]
      exact ⟨fun _ => Or.inl hc, fun _ => ⟨c, rfl⟩⟩
    · rw [if_neg hc, ih]
      simp only [List.mem_cons, exists_eq_or_imp]
      exact ⟨fun h => Or.inr h, fun h => h.resolve_left hc⟩

theorem checkRunes_cases (cs : List Nat) :
    checkRunes cs = Except.ok () ∨ ∃ c, checkRunes cs = Except.error c := by
  cases h : checkRunes cs with
  | ok u => exact Or.inl rfl
  | error c => exact Or.inr ⟨c, rfl⟩

theorem printable_of_runes (text : Bytes)
    (h : ∀ c ∈ rangeRunes 0 text, 0x20 ≤ c ∧ c ≤ 0x7E) : Printable text := by
  induction text with
  | nil => intro b hb; cases hb
  | cons b bs ih =>
    rw [rangeRunes] at h
    have h0 := h _ (List.mem_cons_self _ _)
    have hb : b < 0x80 := by
      by_contra hn
      have := decodeRune_high b bs (by omega)
      omega
    rw [decodeRune_ascii b bs hb] at h h0
    simp only [] at h0
    have hbs := ih (fun c hc => h c (List.mem_cons_of_mem _ hc))
    intro x hx
    rcases List.mem_cons.1 hx with rfl | hx
    · exact h0
    · exact hbs x hx

theorem onlyPrintableAscii_ok_iff (text : Bytes) :
    onlyPrintableAscii text = Except.ok () ↔ Printable text := by
  unfold onlyPrintableAscii
  rw [checkRunes_ok_iff]
  constructor
  · exact printable_of_runes text
  · intro h
    rw [rangeRunes_printable text h]
    exact h

theorem hasBadChar_iff_not_printable (text : Bytes) : HasBadChar text ↔ ¬ Printable text := by
  rw [← onlyPrintableAscii_ok_iff]
  unfold HasBadChar onlyPrintableAscii
  rw [← checkRunes_error_iff]
  constructor
  · rintro ⟨c, hc⟩ h
    rw [hc] at h
    cases h
  · intro h
    exact (checkRunes_cases _).resolve_left h

theorem onlyPrintableAscii_error_of_bad (text : Bytes) (h : HasBadChar text) :
    ∃ c, onlyPrintableAscii text = Except.error c :=
  (checkRunes_error_iff _).2 h


/-! ## Lemmas: the record line -/

theorem hexDigit_range (n : Nat) (h : n < 16) :
    (48 ≤ hexDigit n ∧ hexDigit n ≤ 57) ∨ (97 ≤ hexDigit n ∧ hexDigit n ≤ 102) := by
  unfold hexDigit
  split_ifs <;> omega

theorem hexEncode_length (bs : Bytes) : (hexEncode bs).length = 2 * bs.length := by
  induction bs with
  | nil => rfl
  | cons b bs ih => simp only [hexEncode, List.length_cons, ih]; omega

theorem hexEncode_digits (bs : Bytes) :
    ∀ c ∈ hexEncode bs, (48 ≤ c ∧ c ≤ 57) ∨ (97 ≤ c ∧ c ≤ 102) := by
  induction bs with
  | nil => intro c hc; cases hc
  | cons b bs ih =>
    intro c hc
    simp only [hexEncode, List.mem_cons] at hc
    rcases hc with rfl | rfl | hc
    · exact hexDigit_range _ (Nat.mod_lt _ (by decide))
    · exact hexDigit_range _ (Nat.mod_lt _ (by decide))
    · exact ih c hc

theorem md5_length (msg : Bytes) : (md5 msg).length = 16 := by
  simp [md5, le32]

theorem colon_not_mem_hexEncode (bs : Bytes) : 58 ∉ hexEncode bs := by
  intro h
  have := hexEncode_digits bs 58 h
  omega

theorem makeHash_printable (user realm password : Bytes)
    (hu : Printable user) (hr : Printable realm) (hp : Printable password) :
    makeHash user realm password =
      ([], Except.ok (user ++ 58 :: (realm ++ [58])
        ++ hexEncode (md5 (user ++ 58 :: (realm ++ [58]) ++ password)))) := by
  unfold makeHash
  rw [(onlyPrintableAscii_ok_iff user).2 hu, (onlyPrintableAscii_ok_iff realm).2 hr,
    (onlyPrintableAscii_ok_iff password).2 hp]

theorem makeHash_bad (user realm password : Bytes)
    (h : HasBadChar user ∨ HasBadChar realm ∨ HasBadChar password) :
    ∃ fld, (makeHash user realm password).2 = Except.error (Failure.fatal fld) := by
  unfold makeHash
  cases hu : onlyPrintableAscii user with
  | error c => exact ⟨_, rfl⟩
  | ok u =>
    cases hr : onlyPrintableAscii realm with
    | error c => exact ⟨_, rfl⟩
    | ok v =>
      cases hp : onlyPrintableAscii password with
      | error c => exact ⟨_, rfl⟩
      | ok w =>
        exfalso
        rcases h with h | h | h
        · obtain ⟨c, hc⟩ := onlyPrintableAscii_error_of_bad _ h
          rw [hc] at hu; cases hu
        · obtain ⟨c, hc⟩ := onlyPrintableAscii_error_of_bad _ h
          rw [hc] at hr; cases hr
        · obtain ⟨c, hc⟩ := onlyPrintableAscii_error_of_bad _ h
          rw [hc] at hp; cases hp

theorem makeHash_ok_printable (user realm password line : Bytes) (l : List Diag)
    (h : makeHash user realm password = (l, Except.ok line)) :
    Printable user ∧ Printable realm ∧ Printable password := by
  by_contra hn
  have hb : HasBadChar user ∨ HasBadChar realm ∨ HasBadChar password := by
    simp only [hasBadChar_iff_not_printable]
    tauto
  obtain ⟨fld, hf⟩ := makeHash_bad user realm password hb
  rw [h] at hf
  cases hf

/-! ## The validator and the record codec -/

/-- Claim C6: `onlyPrintableAscii` returns an error exactly when some code
point of the text is below 0x20 or above 0x7E, returns nil exactly when every
code point lies in 0x20..0x7E (which is when every byte does), and accepts the
empty string. -/
theorem onlyPrintableAscii_spec (text : Bytes) :
    ((∃ c, onlyPrintableAscii text = Except.error c)
        ↔ ∃ c ∈ rangeRunes 0 text, c < 0x20 ∨ 0x7E < c)
    ∧ (onlyPrintableAscii text = Except.ok ()
        ↔ ∀ c ∈ rangeRunes 0 text, 0x20 ≤ c ∧ c ≤ 0x7E)
    ∧ (onlyPrintableAscii text = Except.ok () ↔ ∀ b ∈ text, 0x20 ≤ b ∧ b ≤ 0x7E)
    ∧ onlyPrintableAscii [] = Except.ok () :=
  ⟨checkRunes_error_iff _, checkRunes_ok_iff _, onlyPrintableAscii_ok_iff text, rfl⟩

/-- Claim C7: for printable-ASCII user, realm and password, `makeHash` returns
user, a colon, realm, a colon and the lowercase hexadecimal encoding of the MD5
digest of user:realm:password; the digest part has 32 characters, each in
0-9a-f, and the line has length len(user) + len(realm) + 34. -/
theorem makeHash_format (user realm password : Bytes)
    (hu : Printable user) (hr : Printable realm) (hp : Printable password) :
    ∃ digest line,
      (makeHash user realm password).2 = Except.ok line
      ∧ line = user ++ ascii ":" ++ realm ++ ascii ":" ++ digest
      ∧ digest = hexEncode (md5 (user ++ ascii ":" ++ realm ++ ascii ":" ++ password))
      ∧ digest.length = 32
      ∧ (∀ c ∈ digest, (48 ≤ c ∧ c ≤ 57) ∨ (97 ≤ c ∧ c ≤ 102))
      ∧ line.length = user.length + realm.length + 34 := by
  refine ⟨hexEncode (md5 (user ++ ascii ":" ++ realm ++ ascii ":" ++ password)), _,
    by rw [makeHash_printable user realm password hu hr hp], ?_, rfl, ?_, hexEncode_digits _, ?_⟩
  · simp [ascii]
  · rw [hexEncode_length, md5_length]
  · simp only [List.length_append, List.length_cons, List.length_nil, hexEncode_length, md5_length]
    omega

set_option maxRecDepth 100000 in
/-- Scenario A of the specification: the record line of `alice` in `myrealm`
with the secret `s3cr3t`. -/
theorem makeHash_format_witness :
    ∃ digest line,
      (makeHash (ascii "alice") (ascii "myrealm") (ascii "s3cr3t")).2 = Except.ok line
      ∧ line = ascii "alice" ++ ascii ":" ++ ascii "myrealm" ++ ascii ":" ++ digest
      ∧ digest = hexEncode (md5 (ascii "alice" ++ ascii ":" ++ ascii "myrealm" ++ ascii ":"
          ++ ascii "s3cr3t"))
      ∧ digest.length = 32
      ∧ (∀ c ∈ digest, (48 ≤ c ∧ c ≤ 57) ∨ (97 ≤ c ∧ c ≤ 102))
      ∧ line.length = (ascii "alice").length + (ascii "myrealm").length + 34 :=
  makeHash_format (ascii "alice") (ascii "myrealm") (ascii "s3cr3t")
    (by decide) (by decide) (by decide)

/-- Claim C8: for printable-ASCII user and realm without a colon and a
printable-ASCII secret, splitting the line of `makeHash` on colons gives
exactly three fields: the user, the realm, and the 32-character hexadecimal
digest of user:realm:secret. -/
theorem makeHash_split_roundtrip (user realm secret : Bytes)
    (hu : Printable user) (hr : Printable realm) (hs : Printable secret)
    (hcu : 58 ∉ user) (hcr : 58 ∉ realm) :
    ∃ line digest,
      (makeHash user realm secret).2 = Except.ok line
      ∧ splitColon line = [user, realm, digest]
      ∧ digest = hexEncode (md5 (user ++ ascii ":" ++ realm ++ ascii ":" ++ secret))
      ∧ digest.length = 32 := by
  refine ⟨_, hexEncode (md5 (user ++ ascii ":" ++ realm ++ ascii ":" ++ secret)),
    by rw [makeHash_printable user realm secret hu hr hs], ?_, rfl, ?_⟩
  · have e : user ++ 58 :: (realm ++ [58])
        ++ hexEncode (md5 (user ++ 58 :: (realm ++ [58]) ++ secret))
        = user ++ 58 :: (realm ++ 58 ::
          hexEncode (md5 (user ++ ascii ":" ++ realm ++ ascii ":" ++ secret))) := by
      simp [ascii]
    rw [e]
    unfold splitColon
    rw [splitByte_append 58 _ _ hcu, splitByte_append 58 _ _ hcr,
      splitByte_of_not_mem 58 _ (colon_not_mem_hexEncode _)]
  · rw [hexEncode_length, md5_length]

set_option maxRecDepth 100000 in
/-- The round trip at the record of `alice` in `myrealm` with the secret `new`. -/
theorem makeHash_split_roundtrip_witness :
    ∃ line digest,
      (makeHash (ascii "alice") (ascii "myrealm") (ascii "new")).2 = Except.ok line
      ∧ splitColon line = [ascii "alice", ascii "myrealm", digest]
      ∧ digest = hexEncode (md5 (ascii "alice" ++ ascii ":" ++ ascii "myrealm" ++ ascii ":"
          ++ ascii "new"))
      ∧ digest.length = 32 :=
  makeHash_split_roundtrip (ascii "alice") (ascii "myrealm") (ascii "new")
    (by decide) (by decide) (by decide) (by decide) (by decide)

set_option maxRecDepth 100000 in
/-- The model of `crypto/md5` and `encoding/hex` on the test suite of RFC 1321
and on the record of scenario A. -/
theorem md5_test_vectors :
    hexEncode (md5 (ascii "")) = ascii "d41d8cd98f00b204e9800998ecf8427e"
    ∧ hexEncode (md5 (ascii "abc")) = ascii "900150983cd24fb0d6963f7d28e17f72"
    ∧ hexEncode (md5 (ascii "message digest")) = ascii "f96b697d7cb7938d525a2f31aaf161d0"
    ∧ hexEncode (md5 (ascii "alice:myrealm:s3cr3t")) = ascii "b0dc4b58f7bb84cac9807fa0d359658f"
    ∧ hexEncode (md5 (ascii
        "12345678901234567890123456789012345678901234567890123456789012345678901234567890"))
      = ascii "57edf4a22be3c955ac49da2e2107b67a" := by
  decide


/-! ## Lemmas: reading the secret and adding the record -/

theorem newScanner_err_ne (r : Reader) : (newScanner r).err ≠ some Failure.lengthViolation := by
  unfold newScanner
  simp only []
  split_ifs
  · simp
  · cases r.err <;> simp

theorem readLine_error_ne (r : Reader) (l : List Diag) (e : Failure)
    (h : readLineChannelByScanner r = (l, Except.error e)) : e ≠ Failure.lengthViolation := by
  unfold readLineChannelByScanner at h
  simp only [] at h
  split at h
  · simp at h
  · split at h
    · next e2 he =>
      simp only [Prod.mk.injEq, Except.error.injEq] at h
      rintro rfl
      rw [h.2] at he
      exact newScanner_err_ne _ he
    · simp only [Prod.mk.injEq, Except.error.injEq] at h
      rintro rfl
      cases h.2

theorem makeHash_error_fatal (user realm password : Bytes) (l : List Diag) (e : Failure)
    (h : makeHash user realm password = (l, Except.error e)) : ∃ fld, e = Failure.fatal fld := by
  unfold makeHash at h
  split at h
  · simp only [Prod.mk.injEq, Except.error.injEq] at h; exact ⟨_, h.2.symm⟩
  · split at h
    · simp only [Prod.mk.injEq, Except.error.injEq] at h; exact ⟨_, h.2.symm⟩
    · split at h
      · simp only [Prod.mk.injEq, Except.error.injEq] at h; exact ⟨_, h.2.symm⟩
      · simp at h

/-- The two ways `addPassword` ends: with an error other than the length
violation and nothing written, or with nil and the one record line written. -/
theorem addPassword_cases (user realm : Bytes) (stdin : Reader) :
    (∃ e, (addPassword user realm stdin).err = some e ∧ e ≠ Failure.lengthViolation
        ∧ (addPassword user realm stdin).out = []
        ∧ ((∃ fld, e = Failure.fatal fld) ∨
            (readLineChannelByScanner stdin).2 = Except.error e))
    ∨ (∃ secret line, (readLineChannelByScanner stdin).2 = Except.ok secret
        ∧ (makeHash user realm secret).2 = Except.ok line
        ∧ (addPassword user realm stdin).out = [line]
        ∧ (addPassword user realm stdin).err = none) := by
  rcases hr : readLineChannelByScanner stdin with ⟨l, res⟩
  cases res with
  | error e =>
    have ha : addPassword user realm stdin =
        { out := [],
          log := Diag.text "TODO: Add Retype password feature" :: (l ++ [Diag.failure e]),
          err := some e } := by
      simp only [addPassword, hr]
    rw [ha]
    exact Or.inl ⟨e, rfl, readLine_error_ne stdin l e hr, rfl, Or.inr rfl⟩
  | ok password =>
    rcases hm : makeHash user realm password with ⟨l2, res2⟩
    cases res2 with
    | error e =>
      obtain ⟨fld, rfl⟩ := makeHash_error_fatal user realm password l2 e hm
      have ha : addPassword user realm stdin =
          { out := [],
            log := Diag.text "TODO: Add Retype password feature" ::
              (l ++ [Diag.value password, Diag.value (hexEncode password)]) ++ l2,
            err := some (Failure.fatal fld) } := by
        simp only [addPassword, hr, hm]
      rw [ha]
      exact Or.inl ⟨_, rfl, by simp, rfl, Or.inl ⟨fld, rfl⟩⟩
    | ok line =>
      have ha : addPassword user realm stdin =
          { out := [line],
            log := Diag.text "TODO: Add Retype password feature" ::
              (l ++ [Diag.value password, Diag.value (hexEncode password)]) ++ l2,
            err := none } := by
        simp only [addPassword, hr, hm]
      rw [ha]
      refine Or.inr ⟨password, line, rfl, ?_, rfl, rfl⟩
      rw [hm]

/-! ## Lemmas: the loop of the rewrite -/

theorem updateLoop_found (stdin : Reader) (user realm : Bytes) (scanErr : Option Failure)
    (lines : List Bytes) :
    updateLoop stdin user realm scanErr true lines = { out := lines, log := [], err := scanErr } := by
  induction lines with
  | nil => cases scanErr <;> simp [updateLoop]
  | cons line rest ih => simp [updateLoop, ih, Run.putline]

theorem updateLoop_nil (stdin : Reader) (user realm : Bytes) :
    updateLoop stdin user realm none false [] =
      Run.andThen { out := [], log := [Diag.announce false user realm], err := none }
        (addPassword user realm stdin) := by
  simp [updateLoop]

theorem updateLoop_nil_err (stdin : Reader) (user realm : Bytes) (e : Failure) (found : Bool) :
    updateLoop stdin user realm (some e) found [] = { out := [], log := [], err := some e } := by
  simp [updateLoop]

theorem updateLoop_copy (stdin : Reader) (user realm : Bytes) (scanErr : Option Failure)
    (line : Bytes) (rest : List Bytes)
    (h1 : ¬ IsRecordFor user realm line) (h2 : ¬ HasLongField line) :
    updateLoop stdin user realm scanErr false (line :: rest) =
      Run.putline line (updateLoop stdin user realm scanErr false rest) := by
  unfold IsRecordFor at h1
  unfold HasLongField at h2
  rw [updateLoop]
  simp only [MAX_STRING_LEN] at *
  by_cases c1 : line = [] ∨ line.head? = some 35
  · rw [if_pos (Or.inr c1)]
  · have c1a : ¬ (false = true ∨ line = [] ∨ line.head? = some 35) := by simpa using c1
    rw [if_neg c1a]
    rw [not_or] at c1
    by_cases c2 : (splitColon line).length < 3
    · rw [if_pos c2]
    · rw [if_neg c2, if_neg (fun c => h2 ⟨c1.1, c1.2, by omega, by omega⟩), if_pos]
      by_contra c4
      rw [not_or, not_not, not_not] at c4
      exact h1 ⟨c1.1, c1.2, by omega, c4.1, c4.2⟩

theorem updateLoop_long (stdin : Reader) (user realm : Bytes) (scanErr : Option Failure)
    (line : Bytes) (rest : List Bytes) (h : HasLongField line) :
    updateLoop stdin user realm scanErr false (line :: rest) =
      { out := [], log := [], err := some Failure.lengthViolation } := by
  unfold HasLongField at h
  rw [updateLoop]
  simp only [MAX_STRING_LEN] at *
  obtain ⟨h1, h2, h3, h4⟩ := h
  rw [if_neg (by simp [h1, h2]), if_neg (by omega), if_pos (by omega)]

theorem updateLoop_match (stdin : Reader) (user realm : Bytes) (scanErr : Option Failure)
    (line : Bytes) (rest : List Bytes)
    (h1 : IsRecordFor user realm line) (h2 : ¬ HasLongField line) :
    updateLoop stdin user realm scanErr false (line :: rest) =
      if (addPassword user realm stdin).err.isSome then
        Run.andThen { out := [], log := [Diag.announce true user realm], err := none }
          (addPassword user realm stdin)
      else
        Run.andThen
          (Run.andThen { out := [], log := [Diag.announce true user realm], err := none }
            (addPassword user realm stdin))
          { out := rest, log := [], err := scanErr } := by
  unfold HasLongField at h2
  unfold IsRecordFor at h1
  obtain ⟨a1, a2, a3, a4, a5⟩ := h1
  rw [updateLoop]
  simp only [MAX_STRING_LEN] at *
  rw [if_neg (by simp [a1, a2]), if_neg (by omega),
    if_neg (fun c => h2 ⟨a1, a2, a3, by omega⟩), if_neg (not_or.2 ⟨not_not.2 a4, not_not.2 a5⟩)]
  simp only [updateLoop_found, Run.andThen]


theorem exists_first_record (user realm : Bytes) (lines : List Bytes)
    (h : ∃ l ∈ lines, IsRecordFor user realm l) :
    ∃ pre old post, lines = pre ++ old :: post
      ∧ (∀ l ∈ pre, ¬ IsRecordFor user realm l) ∧ IsRecordFor user realm old := by
  induction lines with
  | nil => obtain ⟨l, hl, _⟩ := h; cases hl
  | cons a as ih =>
    by_cases ha : IsRecordFor user realm a
    · exact ⟨[], a, as, rfl, fun l hl => absurd hl (List.not_mem_nil l), ha⟩
    · obtain ⟨l, hl, hr⟩ := h
      rcases List.mem_cons.1 hl with rfl | hl
      · exact absurd hr ha
      · obtain ⟨pre, old, post, e, hp, ho⟩ := ih ⟨l, hl, hr⟩
        refine ⟨a :: pre, old, post, by rw [e]; rfl, ?_, ho⟩
        intro x hx
        rcases List.mem_cons.1 hx with rfl | hx
        · exact ha
        · exact hp x hx

theorem getElem?_append_cons_ne (pre post : List Bytes) (a b : Bytes) (k : Nat)
    (hk : k ≠ pre.length) : (pre ++ a :: post)[k]? = (pre ++ b :: post)[k]? := by
  induction pre generalizing k with
  | nil =>
    cases k with
    | zero => exact absurd rfl hk
    | succ m => simp
  | cons p ps ih =>
    cases k with
    | zero => simp
    | succ m =>
      simp only [List.cons_append, List.getElem?_cons_succ]
      exact ih m (fun e => hk (by simp [e]))

theorem getElem?_append_cons_self (pre post : List Bytes) (a : Bytes) :
    (pre ++ a :: post)[pre.length]? = some a := by
  induction pre with
  | nil => simp
  | cons p ps ih => simpa using ih

/-- A successful pass over lines whose first record for the target is `old`
writes the lines before it, the new record, and the lines after it. -/
theorem updateLoop_update (stdin : Reader) (user realm : Bytes) (scanErr : Option Failure)
    (pre : List Bytes) (old : Bytes) (post : List Bytes)
    (hpre : ∀ l ∈ pre, ¬ IsRecordFor user realm l) (hold : IsRecordFor user realm old)
    (hok : (updateLoop stdin user realm scanErr false (pre ++ old :: post)).err = none) :
    scanErr = none ∧ ∃ secret line,
      (readLineChannelByScanner stdin).2 = Except.ok secret
      ∧ (makeHash user realm secret).2 = Except.ok line
      ∧ (updateLoop stdin user realm scanErr false (pre ++ old :: post)).out
          = pre ++ line :: post := by
  induction pre with
  | nil =>
    by_cases hl : HasLongField old
    · rw [List.nil_append, updateLoop_long _ _ _ _ _ _ hl] at hok
      cases hok
    · rw [List.nil_append, updateLoop_match _ _ _ _ _ _ hold hl] at hok ⊢
      rcases addPassword_cases user realm stdin with ⟨e, he, _, _, _⟩ | ⟨secret, line, h1, h2, h3, h4⟩
      · simp [he, Run.andThen] at hok
      · simp only [h4, Option.isSome_none, Bool.false_eq_true, ↓reduceIte, Run.andThen] at hok ⊢
        refine ⟨hok, secret, line, h1, h2, ?_⟩
        simp [h3]
  | cons l pre ih =>
    have hnl : ¬ IsRecordFor user realm l := hpre l (List.mem_cons_self _ _)
    by_cases hl : HasLongField l
    · rw [List.cons_append, updateLoop_long _ _ _ _ _ _ hl] at hok
      cases hok
    · rw [List.cons_append, updateLoop_copy _ _ _ _ _ _ hnl hl] at hok ⊢
      simp only [Run.putline] at hok ⊢
      obtain ⟨hs, secret, line, h1, h2, h3⟩ :=
        ih (fun x hx => hpre x (List.mem_cons_of_mem _ hx)) hok
      exact ⟨hs, secret, line, h1, h2, by rw [h3]; rfl⟩

/-- A successful pass over lines without a record for the target writes the
lines and then the new record. -/
theorem updateLoop_add (stdin : Reader) (user realm : Bytes) (scanErr : Option Failure)
    (lines : List Bytes) (hno : ∀ l ∈ lines, ¬ IsRecordFor user realm l)
    (hok : (updateLoop stdin user realm scanErr false lines).err = none) :
    scanErr = none ∧ ∃ secret line,
      (readLineChannelByScanner stdin).2 = Except.ok secret
      ∧ (makeHash user realm secret).2 = Except.ok line
      ∧ (updateLoop stdin user realm scanErr false lines).out = lines ++ [line] := by
  induction lines with
  | nil =>
    cases scanErr with
    | some e => rw [updateLoop_nil_err] at hok; cases hok
    | none =>
      rw [updateLoop_nil] at hok ⊢
      rcases addPassword_cases user realm stdin with ⟨e, he, _, _, _⟩ | ⟨secret, line, h1, h2, h3, h4⟩
      · simp [he, Run.andThen] at hok
      · exact ⟨rfl, secret, line, h1, h2, by simp [Run.andThen, h3]⟩
  | cons l rest ih =>
    have hnl : ¬ IsRecordFor user realm l := hno l (List.mem_cons_self _ _)
    by_cases hl : HasLongField l
    · rw [updateLoop_long _ _ _ _ _ _ hl] at hok
      cases hok
    · rw [updateLoop_copy _ _ _ _ _ _ hnl hl] at hok ⊢
      simp only [Run.putline] at hok ⊢
      obtain ⟨hs, secret, line, h1, h2, h3⟩ :=
        ih (fun x hx => hno x (List.mem_cons_of_mem _ hx)) hok
      exact ⟨hs, secret, line, h1, h2, by rw [h3]; rfl⟩

/-- In a successful pass every line that is no record for the target is
written at the position it was read at. -/
theorem updateLoop_keeps (stdin : Reader) (user realm : Bytes) (scanErr : Option Failure)
    (found : Bool) (lines : List Bytes) (k : Nat) (l : Bytes)
    (hok : (updateLoop stdin user realm scanErr found lines).err = none)
    (hk : lines[k]? = some l) (hl : ¬ IsRecordFor user realm l) :
    (updateLoop stdin user realm scanErr found lines).out[k]? = some l := by
  cases found with
  | true => rw [updateLoop_found]; exact hk
  | false =>
    induction lines generalizing k with
    | nil => simp at hk
    | cons a rest ih =>
      by_cases hla : HasLongField a
      · rw [updateLoop_long _ _ _ _ _ _ hla] at hok
        cases hok
      · by_cases hra : IsRecordFor user realm a
        · rw [updateLoop_match _ _ _ _ _ _ hra hla] at hok ⊢
          rcases addPassword_cases user realm stdin with
            ⟨e, he, _, _, _⟩ | ⟨secret, line, h1, h2, h3, h4⟩
          · simp [he, Run.andThen] at hok
          · simp only [h4, Option.isSome_none, Bool.false_eq_true, ↓reduceIte, Run.andThen,
              h3, List.nil_append, List.singleton_append]
            cases k with
            | zero =>
              simp only [List.getElem?_cons_zero, Option.some.injEq] at hk
              rw [hk] at hra
              exact absurd hra hl
            | succ m => simpa using hk
        · rw [updateLoop_copy _ _ _ _ _ _ hra hla] at hok ⊢
          simp only [Run.putline] at hok ⊢
          cases k with
          | zero => simpa using hk
          | succ m =>
            simp only [List.getElem?_cons_succ] at hk ⊢
            exact ih m hk hok

theorem not_record_of_passThrough (user realm line : Bytes) (h : IsPassThrough line) :
    ¬ IsRecordFor user realm line := by
  rintro ⟨a1, a2, a3, _, _⟩
  rcases h with h | h | h
  · exact a2 h
  · exact a1 h
  · omega


/-- The error of a pass is the length violation exactly when a line with a
field longer than 255 bytes comes before any record for the target. -/
theorem updateLoop_lengthViolation_iff (stdin : Reader) (user realm : Bytes)
    (scanErr : Option Failure) (hs : scanErr ≠ some Failure.lengthViolation)
    (lines : List Bytes) :
    (updateLoop stdin user realm scanErr false lines).err = some Failure.lengthViolation
      ↔ ∃ pre bad post, lines = pre ++ bad :: post
          ∧ (∀ l ∈ pre, ¬ IsRecordFor user realm l) ∧ HasLongField bad := by
  constructor
  · intro h
    induction lines with
    | nil =>
      exfalso
      cases scanErr with
      | some e =>
        rw [updateLoop_nil_err] at h
        exact hs h
      | none =>
        rw [updateLoop_nil] at h
        rcases addPassword_cases user realm stdin with
          ⟨e, he, hne, _, _⟩ | ⟨secret, line, h1, h2, h3, h4⟩
        · simp only [Run.andThen, he, Option.some.injEq] at h
          exact hne h
        · simp [Run.andThen, h4] at h
    | cons a rest ih =>
      by_cases hla : HasLongField a
      · exact ⟨[], a, rest, rfl, fun l hl => absurd hl (List.not_mem_nil l), hla⟩
      · by_cases hra : IsRecordFor user realm a
        · exfalso
          rw [updateLoop_match _ _ _ _ _ _ hra hla] at h
          rcases addPassword_cases user realm stdin with
            ⟨e, he, hne, _, _⟩ | ⟨secret, line, h1, h2, h3, h4⟩
          · simp only [he, Option.isSome_some, ↓reduceIte, Run.andThen, Option.some.injEq] at h
            exact hne h
          · simp only [h4, Option.isSome_none, Bool.false_eq_true, ↓reduceIte, Run.andThen] at h
            exact hs h
        · rw [updateLoop_copy _ _ _ _ _ _ hra hla] at h
          simp only [Run.putline] at h
          obtain ⟨pre, bad, post, e, hp, hb⟩ := ih h
          refine ⟨a :: pre, bad, post, by rw [e]; rfl, ?_, hb⟩
          intro x hx
          rcases List.mem_cons.1 hx with rfl | hx
          · exact hra
          · exact hp x hx
  · rintro ⟨pre, bad, post, rfl, hpre, hbad⟩
    induction pre with
    | nil => rw [List.nil_append, updateLoop_long _ _ _ _ _ _ hbad]
    | cons l pre ih =>
      by_cases hl : HasLongField l
      · rw [List.cons_append, updateLoop_long _ _ _ _ _ _ hl]
      · rw [List.cons_append,
          updateLoop_copy _ _ _ _ _ _ (hpre l (List.mem_cons_self _ _)) hl]
        simp only [Run.putline]
        exact ih (fun x hx => hpre x (List.mem_cons_of_mem _ hx))

/-- In update mode a failed rewrite leaves the password file as it was and
the exit status is 1. -/
theorem main_update_failed (env : Env) (args : List Bytes) (stdin : Reader) (content : Bytes)
    (e : Failure) (hargs : args.length = 4)
    (herr : (updateTempPasswordFile { data := content, err := env.readErr } stdin
      (args.getD 3 []) (args.getD 2 [])).err = some e) :
    (main env args stdin (some content)).target = some content
      ∧ (main env args stdin (some content)).code = 1 := by
  unfold main
  rw [if_neg (by omega), if_neg (by omega)]
  split_ifs <;>
    first
    | exact ⟨rfl, rfl⟩
    | (simp only [herr]; cases e <;> exact ⟨rfl, rfl⟩)


/-! ## The rewrite engine -/

/-- Claim C1 (update semantics): when the input lines contain a record for the
target and the run succeeds, the output has as many lines as the input, the
line at the position of the first such record is the line of `makeHash` for
the secret read, and every other output line is the input line at the same
position. -/
theorem update_replaces_first_record (f stdin : Reader) (user realm : Bytes)
    (hrec : ∃ l ∈ (newScanner f).tokens, IsRecordFor user realm l)
    (hok : (updateTempPasswordFile f stdin user realm).err = none) :
    ∃ pre old post secret line,
      (newScanner f).tokens = pre ++ old :: post
      ∧ (∀ l ∈ pre, ¬ IsRecordFor user realm l) ∧ IsRecordFor user realm old
      ∧ (readLineChannelByScanner stdin).2 = Except.ok secret
      ∧ (makeHash user realm secret).2 = Except.ok line
      ∧ (updateTempPasswordFile f stdin user realm).out = pre ++ line :: post
      ∧ (updateTempPasswordFile f stdin user realm).out.length = (newScanner f).tokens.length
      ∧ (updateTempPasswordFile f stdin user realm).out[pre.length]? = some line
      ∧ ∀ k, k ≠ pre.length →
          (updateTempPasswordFile f stdin user realm).out[k]? = (newScanner f).tokens[k]? := by
  obtain ⟨pre, old, post, e, hpre, hold⟩ := exists_first_record user realm _ hrec
  unfold updateTempPasswordFile at hok ⊢
  rw [e] at hok ⊢
  obtain ⟨_, secret, line, h1, h2, h3⟩ := updateLoop_update _ _ _ _ pre old post hpre hold hok
  refine ⟨pre, old, post, secret, line, rfl, hpre, hold, h1, h2, h3, ?_, ?_, ?_⟩
  · rw [h3]; simp
  · rw [h3]; exact getElem?_append_cons_self pre post line
  · intro k hk
    rw [h3]
    exact getElem?_append_cons_ne pre post line old k hk

set_option maxRecDepth 100000 in
/-- Scenario B of the specification: the record of `alice` in `myrealm` is
replaced and the comment after it is kept. -/
theorem update_replaces_first_record_witness :
    ∃ pre old post secret line,
      (newScanner { data := ascii "alice:myrealm:0123\n# comment\n", err := none }).tokens
        = pre ++ old :: post
      ∧ (∀ l ∈ pre, ¬ IsRecordFor (ascii "alice") (ascii "myrealm") l)
      ∧ IsRecordFor (ascii "alice") (ascii "myrealm") old
      ∧ (readLineChannelByScanner { data := ascii "new\n", err := none }).2 = Except.ok secret
      ∧ (makeHash (ascii "alice") (ascii "myrealm") secret).2 = Except.ok line
      ∧ (updateTempPasswordFile { data := ascii "alice:myrealm:0123\n# comment\n", err := none }
          { data := ascii "new\n", err := none } (ascii "alice") (ascii "myrealm")).out
        = pre ++ line :: post
      ∧ (updateTempPasswordFile { data := ascii "alice:myrealm:0123\n# comment\n", err := none }
          { data := ascii "new\n", err := none } (ascii "alice") (ascii "myrealm")).out.length
        = (newScanner { data := ascii "alice:myrealm:0123\n# comment\n", err := none }).tokens.length
      ∧ (updateTempPasswordFile { data := ascii "alice:myrealm:0123\n# comment\n", err := none }
          { data := ascii "new\n", err := none } (ascii "alice") (ascii "myrealm")).out[pre.length]?
        = some line
      ∧ ∀ k, k ≠ pre.length →
          (updateTempPasswordFile { data := ascii "alice:myrealm:0123\n# comment\n", err := none }
            { data := ascii "new\n", err := none } (ascii "alice") (ascii "myrealm")).out[k]?
          = (newScanner { data := ascii "alice:myrealm:0123\n# comment\n", err := none }).tokens[k]? :=
  update_replaces_first_record { data := ascii "alice:myrealm:0123\n# comment\n", err := none }
    { data := ascii "new\n", err := none } (ascii "alice") (ascii "myrealm")
    (by decide) (by decide)

set_option maxRecDepth 100000 in
/-- Scenario B of the specification, evaluated: the two output lines. -/
theorem scenario_update :
    (updateTempPasswordFile { data := ascii "alice:myrealm:0123\n# comment\n", err := none }
      { data := ascii "new\n", err := none } (ascii "alice") (ascii "myrealm")).out
      = [ascii "alice:myrealm:02ef306d3e9aa58e1e391e704f146ccc", ascii "# comment"] := by
  decide

/-- Claim C2 (add semantics): when no input line is a record for the target
and the run succeeds, the output is the input lines in order followed by one
new line, the line of `makeHash` for the secret read; for an empty input the
output is that one line. -/
theorem add_appends_record (f stdin : Reader) (user realm : Bytes)
    (hno : ∀ l ∈ (newScanner f).tokens, ¬ IsRecordFor user realm l)
    (hok : (updateTempPasswordFile f stdin user realm).err = none) :
    ∃ secret line,
      (readLineChannelByScanner stdin).2 = Except.ok secret
      ∧ (makeHash user realm secret).2 = Except.ok line
      ∧ (updateTempPasswordFile f stdin user realm).out = (newScanner f).tokens ++ [line]
      ∧ (f.data = [] → (updateTempPasswordFile f stdin user realm).out = [line]) := by
  unfold updateTempPasswordFile at hok ⊢
  obtain ⟨_, secret, line, h1, h2, h3⟩ := updateLoop_add _ _ _ _ _ hno hok
  refine ⟨secret, line, h1, h2, h3, ?_⟩
  intro hd
  rw [h3]
  have : (newScanner f).tokens = [] := by
    simp [newScanner, hd, rawLines, splitByte, scanTokens]
  rw [this]
  rfl

set_option maxRecDepth 100000 in
/-- Adding `alice` in `myrealm` to a file that holds a comment and the record
of another user, and to an empty file (scenario A of the specification). -/
theorem add_appends_record_witness :
    (∃ secret line,
      (readLineChannelByScanner { data := ascii "s3cr3t\n", err := none }).2 = Except.ok secret
      ∧ (makeHash (ascii "alice") (ascii "myrealm") secret).2 = Except.ok line
      ∧ (updateTempPasswordFile { data := ascii "# c\nbob:myrealm:1\n", err := none }
          { data := ascii "s3cr3t\n", err := none } (ascii "alice") (ascii "myrealm")).out
        = (newScanner { data := ascii "# c\nbob:myrealm:1\n", err := none }).tokens ++ [line]
      ∧ ((({ data := ascii "# c\nbob:myrealm:1\n", err := none } : Reader).data = []) →
          (updateTempPasswordFile { data := ascii "# c\nbob:myrealm:1\n", err := none }
            { data := ascii "s3cr3t\n", err := none } (ascii "alice") (ascii "myrealm")).out
          = [line]))
    ∧ (newScanner { data := ascii "# c\nbob:myrealm:1\n", err := none }).tokens
        = [ascii "# c", ascii "bob:myrealm:1"]
    ∧ (∃ secret line,
      (readLineChannelByScanner { data := ascii "s3cr3t\n", err := none }).2 = Except.ok secret
      ∧ (makeHash (ascii "alice") (ascii "myrealm") secret).2 = Except.ok line
      ∧ (updateTempPasswordFile { data := [], err := none } { data := ascii "s3cr3t\n", err := none }
          (ascii "alice") (ascii "myrealm")).out
        = (newScanner { data := [], err := none }).tokens ++ [line]
      ∧ ((({ data := [], err := none } : Reader).data = []) →
          (updateTempPasswordFile { data := [], err := none }
            { data := ascii "s3cr3t\n", err := none } (ascii "alice") (ascii "myrealm")).out
          = [line])) :=
  ⟨add_appends_record { data := ascii "# c\nbob:myrealm:1\n", err := none }
      { data := ascii "s3cr3t\n", err := none } (ascii "alice") (ascii "myrealm")
      (by decide) (by decide),
   by decide,
   add_appends_record { data := [], err := none } { data := ascii "s3cr3t\n", err := none }
      (ascii "alice") (ascii "myrealm") (by decide) (by decide)⟩

set_option maxRecDepth 100000 in
/-- Scenario A of the specification, evaluated: the one output line. -/
theorem scenario_add :
    (updateTempPasswordFile { data := [], err := none } { data := ascii "s3cr3t\n", err := none }
      (ascii "alice") (ascii "myrealm")).out
      = [ascii "alice:myrealm:b0dc4b58f7bb84cac9807fa0d359658f"] := by
  decide

set_option maxRecDepth 100000 in
/-- Adding `alice` in `myrealm` to a file with a comment and another record,
evaluated: the two input lines in order and then the new record. -/
theorem scenario_add_after_lines :
    (updateTempPasswordFile { data := ascii "# c\nbob:myrealm:1\n", err := none }
      { data := ascii "s3cr3t\n", err := none } (ascii "alice") (ascii "myrealm")).out
      = [ascii "# c", ascii "bob:myrealm:1",
         ascii "alice:myrealm:b0dc4b58f7bb84cac9807fa0d359658f"] := by
  decide

/-- Claim C3 (first match wins): when the input holds a first record for the
target and a later one, a successful run replaces the first with the new
record and writes the later one unchanged at its position. -/
theorem later_duplicate_untouched (f stdin : Reader) (user realm : Bytes)
    (pre mid post : List Bytes) (first dup : Bytes)
    (hlines : (newScanner f).tokens = pre ++ first :: (mid ++ dup :: post))
    (hpre : ∀ l ∈ pre, ¬ IsRecordFor user realm l)
    (hfirst : IsRecordFor user realm first) (_hdup : IsRecordFor user realm dup)
    (hok : (updateTempPasswordFile f stdin user realm).err = none) :
    ∃ secret line,
      (readLineChannelByScanner stdin).2 = Except.ok secret
      ∧ (makeHash user realm secret).2 = Except.ok line
      ∧ (updateTempPasswordFile f stdin user realm).out = pre ++ line :: (mid ++ dup :: post)
      ∧ (updateTempPasswordFile f stdin user realm).out[pre.length + 1 + mid.length]? = some dup
      ∧ (newScanner f).tokens[pre.length + 1 + mid.length]? = some dup := by
  unfold updateTempPasswordFile at hok ⊢
  rw [hlines] at hok ⊢
  obtain ⟨_, secret, line, h1, h2, h3⟩ :=
    updateLoop_update _ _ _ _ pre first (mid ++ dup :: post) hpre hfirst hok
  have key : ∀ x : Bytes,
      (pre ++ x :: (mid ++ dup :: post))[pre.length + 1 + mid.length]? = some dup := by
    intro x
    have e : pre ++ x :: (mid ++ dup :: post) = (pre ++ x :: mid) ++ dup :: post := by simp
    have hlen : pre.length + 1 + mid.length = (pre ++ x :: mid).length := by simp; omega
    rw [e, hlen]
    exact getElem?_append_cons_self _ _ _
  exact ⟨secret, line, h1, h2, h3, by rw [h3]; exact key line, key first⟩

set_option maxRecDepth 100000 in
/-- A file with the record of `a` in `r` twice: the second keeps its digest. -/
theorem later_duplicate_untouched_witness :
    ∃ secret line,
      (readLineChannelByScanner { data := ascii "pw\n", err := none }).2 = Except.ok secret
      ∧ (makeHash (ascii "a") (ascii "r") secret).2 = Except.ok line
      ∧ (updateTempPasswordFile { data := ascii "# c\na:r:1\nb:r:3\na:r:2\n", err := none }
          { data := ascii "pw\n", err := none } (ascii "a") (ascii "r")).out
        = [ascii "# c"] ++ line :: ([ascii "b:r:3"] ++ ascii "a:r:2" :: [])
      ∧ (updateTempPasswordFile { data := ascii "# c\na:r:1\nb:r:3\na:r:2\n", err := none }
          { data := ascii "pw\n", err := none } (ascii "a") (ascii "r")).out[
            [ascii "# c"].length + 1 + [ascii "b:r:3"].length]? = some (ascii "a:r:2")
      ∧ (newScanner { data := ascii "# c\na:r:1\nb:r:3\na:r:2\n", err := none }).tokens[
            [ascii "# c"].length + 1 + [ascii "b:r:3"].length]? = some (ascii "a:r:2") :=
  later_duplicate_untouched { data := ascii "# c\na:r:1\nb:r:3\na:r:2\n", err := none }
    { data := ascii "pw\n", err := none } (ascii "a") (ascii "r")
    [ascii "# c"] [ascii "b:r:3"] [] (ascii "a:r:1") (ascii "a:r:2")
    (by decide) (by decide) (by decide) (by decide) (by decide)

/-- Claim C4 (pass-through): in a successful run every input line that is a
comment, blank or malformed is written unchanged at the position it has in the
input, and every other input line keeps its position too: the output line
there is that line, or the line is a record for the target. -/
theorem pass_through_lines_kept (f stdin : Reader) (user realm : Bytes)
    (hok : (updateTempPasswordFile f stdin user realm).err = none) :
    (∀ (k : Nat) (l : Bytes), (newScanner f).tokens[k]? = some l → IsPassThrough l →
        (updateTempPasswordFile f stdin user realm).out[k]? = some l)
    ∧ (∀ (k : Nat) (l : Bytes), (newScanner f).tokens[k]? = some l →
        (updateTempPasswordFile f stdin user realm).out[k]? = some l
          ∨ IsRecordFor user realm l) := by
  unfold updateTempPasswordFile at hok ⊢
  constructor
  · intro k l hk hp
    exact updateLoop_keeps _ _ _ _ _ _ k l hok hk (not_record_of_passThrough user realm l hp)
  · intro k l hk
    by_cases hr : IsRecordFor user realm l
    · exact Or.inr hr
    · exact Or.inl (updateLoop_keeps _ _ _ _ _ _ k l hok hk hr)

set_option maxRecDepth 100000 in
/-- A file with a comment, a blank line, a malformed line and a record. -/
theorem pass_through_lines_kept_witness :
    (∀ (k : Nat) (l : Bytes), (newScanner { data := ascii "# c\n\nbad:line\nalice:r:old\n# t\n", err := none }).tokens[k]?
          = some l → IsPassThrough l →
        (updateTempPasswordFile { data := ascii "# c\n\nbad:line\nalice:r:old\n# t\n", err := none }
          { data := ascii "pw\n", err := none } (ascii "alice") (ascii "r")).out[k]? = some l)
    ∧ (∀ (k : Nat) (l : Bytes), (newScanner { data := ascii "# c\n\nbad:line\nalice:r:old\n# t\n", err := none }).tokens[k]?
          = some l →
        (updateTempPasswordFile { data := ascii "# c\n\nbad:line\nalice:r:old\n# t\n", err := none }
          { data := ascii "pw\n", err := none } (ascii "alice") (ascii "r")).out[k]? = some l
          ∨ IsRecordFor (ascii "alice") (ascii "r") l) :=
  pass_through_lines_kept { data := ascii "# c\n\nbad:line\nalice:r:old\n# t\n", err := none }
    { data := ascii "pw\n", err := none } (ascii "alice") (ascii "r") (by decide)


set_option maxRecDepth 100000 in
/-- Claim C5 (length-violation abort): `updateTempPasswordFile` returns the
length-violation error exactly when a line with a first or second field longer
than 255 bytes is reached before any record for the target; a field of 256
bytes aborts and one of 255 bytes does not; and `main` then leaves the password
file as it was and exits with status 1. -/
theorem length_violation_abort (f stdin : Reader) (user realm : Bytes) :
    ((updateTempPasswordFile f stdin user realm).err = some Failure.lengthViolation
      ↔ ∃ pre bad post, (newScanner f).tokens = pre ++ bad :: post
          ∧ (∀ l ∈ pre, ¬ IsRecordFor user realm l) ∧ HasLongField bad)
    ∧ (updateTempPasswordFile { data := List.replicate 256 97 ++ ascii ":r:h\n", err := none }
        stdin user realm).err = some Failure.lengthViolation
    ∧ (updateTempPasswordFile { data := List.replicate 255 97 ++ ascii ":r:h\n", err := none }
        stdin user realm).err ≠ some Failure.lengthViolation
    ∧ (∀ (env : Env) (args : List Bytes) (content : Bytes), args.length = 4 →
        (updateTempPasswordFile { data := content, err := env.readErr } stdin
          (args.getD 3 []) (args.getD 2 [])).err = some Failure.lengthViolation →
        (main env args stdin (some content)).target = some content
          ∧ (main env args stdin (some content)).code = 1) := by
  have key : ∀ g : Reader,
      ((updateTempPasswordFile g stdin user realm).err = some Failure.lengthViolation
        ↔ ∃ pre bad post, (newScanner g).tokens = pre ++ bad :: post
            ∧ (∀ l ∈ pre, ¬ IsRecordFor user realm l) ∧ HasLongField bad) := fun g =>
    updateLoop_lengthViolation_iff stdin user realm _ (newScanner_err_ne g) _
  refine ⟨key f, ?_, ?_, ?_⟩
  · rw [key]
    exact ⟨[], List.replicate 256 97 ++ ascii ":r:h", [], by decide,
      fun l hl => absurd hl (List.not_mem_nil l), by decide⟩
  · rw [Ne, key]
    rintro ⟨pre, bad, post, e, _, hb⟩
    have ht : (newScanner { data := List.replicate 255 97 ++ ascii ":r:h\n", err := none }).tokens
        = [List.replicate 255 97 ++ ascii ":r:h"] := by decide
    rw [ht] at e
    cases pre with
    | nil =>
      simp only [List.nil_append, List.cons.injEq] at e
      rw [← e.1] at hb
      revert hb
      decide
    | cons p ps =>
      simp only [List.cons_append, List.cons.injEq] at e
      have := e.2
      simp at this
  · intro env args content hargs herr
    exact main_update_failed env args stdin content _ hargs herr

set_option maxRecDepth 100000 in
/-- A user name of 256 bytes in the file: the run of `main` ends with status 1
and the file is as before. -/
theorem length_violation_abort_witness :
    (main Env.allOk
        [ascii "htdigest", ascii "f", ascii "r", ascii "u"] ({ data := ascii "pw\n", err := none })
        (some (List.replicate 256 97 ++ ascii ":r:h\n"))).target
      = some (List.replicate 256 97 ++ ascii ":r:h\n")
    ∧ (main Env.allOk
        [ascii "htdigest", ascii "f", ascii "r", ascii "u"] ({ data := ascii "pw\n", err := none })
        (some (List.replicate 256 97 ++ ascii ":r:h\n"))).code = 1 :=
  (length_violation_abort { data := [], err := none } { data := ascii "pw\n", err := none }
      (ascii "u") (ascii "r")).2.2.2
    Env.allOk
    [ascii "htdigest", ascii "f", ascii "r", ascii "u"]
    (List.replicate 256 97 ++ ascii ":r:h\n") (by decide) (by decide)


/-! ## Validation and the password file -/

/-- With a character outside 0x20..0x7E in the user, the realm or the secret,
`addPassword` ends with an error and writes nothing. -/
theorem addPassword_bad (user realm : Bytes) (stdin : Reader) (h : BadInput user realm stdin) :
    ∃ e, (addPassword user realm stdin).err = some e ∧ (addPassword user realm stdin).out = [] := by
  rcases addPassword_cases user realm stdin with
    ⟨e, he, _, ho, _⟩ | ⟨secret, line, h1, h2, _, _⟩
  · exact ⟨e, he, ho⟩
  · exfalso
    have hb : HasBadChar user ∨ HasBadChar realm ∨ HasBadChar secret := by
      rcases h with h | h | ⟨s, hs, hbs⟩
      · exact Or.inl h
      · exact Or.inr (Or.inl h)
      · rw [h1] at hs
        cases hs
        exact Or.inr (Or.inr hbs)
    obtain ⟨fld, hf⟩ := makeHash_bad user realm secret hb
    rw [h2] at hf
    cases hf

theorem updateLoop_bad (stdin : Reader) (user realm : Bytes) (scanErr : Option Failure)
    (h : BadInput user realm stdin) (lines : List Bytes) :
    ∃ e, (updateLoop stdin user realm scanErr false lines).err = some e := by
  obtain ⟨e, he, _⟩ := addPassword_bad user realm stdin h
  induction lines with
  | nil =>
    cases scanErr with
    | some e2 => exact ⟨e2, by rw [updateLoop_nil_err]⟩
    | none => exact ⟨e, by rw [updateLoop_nil]; simp [Run.andThen, he]⟩
  | cons a rest ih =>
    by_cases hla : HasLongField a
    · exact ⟨_, by rw [updateLoop_long _ _ _ _ _ _ hla]⟩
    · by_cases hra : IsRecordFor user realm a
      · exact ⟨e, by rw [updateLoop_match _ _ _ _ _ _ hra hla]; simp [Run.andThen, he]⟩
      · obtain ⟨e2, he2⟩ := ih
        exact ⟨e2, by rw [updateLoop_copy _ _ _ _ _ _ hra hla]; simpa [Run.putline] using he2⟩

/-- Claim C9, as the program has it: with a character outside 0x20..0x7E in
the user, the realm or the secret, the run ends with status 1; in update mode
the password file is as before; in create mode the file has been truncated
before the validation and is empty (it is as before only when `-c` is missing
or the file could not be created). -/
theorem validation_failure_effect (env : Env) (args : List Bytes) (stdin : Reader)
    (target : Option Bytes) :
    (args.length = 4 → BadInput (args.getD 3 []) (args.getD 2 []) stdin →
        (main env args stdin target).code = 1 ∧ (main env args stdin target).target = target)
    ∧ (args.length = 5 → BadInput (args.getD 4 []) (args.getD 3 []) stdin →
        (main env args stdin target).code = 1
        ∧ (main env args stdin target).target
            = if args.getD 1 [] = ascii "-c" ∧ env.createOk = true then some [] else target) := by
  constructor
  · intro hargs hbad
    cases target with
    | none =>
      unfold main
      rw [if_neg (by omega), if_neg (by omega)]
      split_ifs <;> exact ⟨rfl, rfl⟩
    | some content =>
      obtain ⟨e, he⟩ := updateLoop_bad stdin (args.getD 3 []) (args.getD 2 [])
        (newScanner { data := content, err := env.readErr }).err hbad
        (newScanner { data := content, err := env.readErr }).tokens
      have := main_update_failed env args stdin content e hargs he
      exact ⟨this.2, this.1⟩
  · intro hargs hbad
    obtain ⟨e, he, ho⟩ := addPassword_bad _ _ stdin hbad
    unfold main
    rw [if_pos hargs]
    by_cases hc : args.getD 1 [] = ascii "-c"
    · rw [if_neg (not_not.2 hc)]
      by_cases hcr : env.createOk = false
      · rw [if_pos hcr, if_neg (fun c => by rw [hcr] at c; cases c.2)]
        exact ⟨rfl, rfl⟩
      · rw [if_neg hcr, if_pos ⟨hc, by simpa using hcr⟩]
        simp only [he, ho, fileContent, Option.isSome_some, if_true, and_self]
    · rw [if_pos hc, if_neg (fun c => hc c.1)]
      exact ⟨rfl, rfl⟩

set_option maxRecDepth 100000 in
/-- A bell character in the user name: in update mode the file is as before,
in create mode it is empty. -/
theorem validation_failure_effect_witness :
    ((main Env.allOk [ascii "htdigest", ascii "f", ascii "r", [7]]
          ({ data := ascii "pw\n", err := none }) (some (ascii "u:r:1\n"))).code = 1
      ∧ (main Env.allOk [ascii "htdigest", ascii "f", ascii "r", [7]]
          ({ data := ascii "pw\n", err := none }) (some (ascii "u:r:1\n"))).target
        = some (ascii "u:r:1\n"))
    ∧ ((main Env.allOk [ascii "htdigest", ascii "-c", ascii "f", ascii "r", [7]]
          ({ data := ascii "pw\n", err := none }) (some (ascii "u:r:1\n"))).code = 1
      ∧ (main Env.allOk [ascii "htdigest", ascii "-c", ascii "f", ascii "r", [7]]
          ({ data := ascii "pw\n", err := none }) (some (ascii "u:r:1\n"))).target
        = if [ascii "htdigest", ascii "-c", ascii "f", ascii "r", [7]].getD 1 [] = ascii "-c"
            ∧ Env.allOk.createOk = true then some [] else some (ascii "u:r:1\n")) :=
  ⟨(validation_failure_effect Env.allOk [ascii "htdigest", ascii "f", ascii "r", [7]]
      ({ data := ascii "pw\n", err := none }) (some (ascii "u:r:1\n"))).1
      (by decide) (Or.inl (by decide)),
   (validation_failure_effect Env.allOk [ascii "htdigest", ascii "-c", ascii "f", ascii "r", [7]]
      ({ data := ascii "pw\n", err := none }) (some (ascii "u:r:1\n"))).2
      (by decide) (Or.inl (by decide))⟩

set_option maxRecDepth 100000 in
/-- Claim C9 fails in create mode: with a bell character in the user name the
run aborts, and the password file, which held a record before, is empty. -/
theorem validation_create_counterexample :
    HasBadChar [7]
    ∧ (main Env.allOk [ascii "htdigest", ascii "-c", ascii "f", ascii "r", [7]]
        ({ data := ascii "pw\n", err := none }) (some (ascii "u:r:1\n"))).code = 1
    ∧ (main Env.allOk [ascii "htdigest", ascii "-c", ascii "f", ascii "r", [7]]
        ({ data := ascii "pw\n", err := none }) (some (ascii "u:r:1\n"))).target = some []
    ∧ (main Env.allOk [ascii "htdigest", ascii "-c", ascii "f", ascii "r", [7]]
        ({ data := ascii "pw\n", err := none }) (some (ascii "u:r:1\n"))).target
      ≠ some (ascii "u:r:1\n") := by
  decide


/-! ## Reading the secret -/

theorem splitByte_singleton (sep : Nat) (s x : Bytes) (h : splitByte sep s = [x]) : s = x := by
  induction s generalizing x with
  | nil => simpa [splitByte] using h
  | cons c cs ih =>
    unfold splitByte at h
    by_cases hc : c = sep
    · rw [if_pos hc] at h
      simp only [List.cons.injEq] at h
      exact absurd h.2 (splitByte_ne_nil sep cs)
    · rw [if_neg hc] at h
      cases hs : splitByte sep cs with
      | nil => exact absurd hs (splitByte_ne_nil sep cs)
      | cons p ps =>
        rw [hs] at h
        simp only [List.cons.injEq] at h
        obtain ⟨h1, h2⟩ := h
        rw [h2] at hs
        rw [← h1, ih p hs]

theorem rawLines_head (data : Bytes) (h : data ≠ []) :
    ∃ rest, rawLines data = firstLine data :: rest := by
  have hh := splitByte_head 10 data
  unfold rawLines
  simp only []
  cases hs : splitByte 10 data with
  | nil => exact absurd hs (splitByte_ne_nil 10 data)
  | cons p ps =>
    rw [hs] at hh
    simp only [List.head?_cons, Option.some.injEq] at hh
    have hp : p = firstLine data := hh
    cases ps with
    | nil =>
      have hd : data = p := splitByte_singleton 10 data p hs
      have hne : p ≠ [] := fun e => h (by rw [hd, e])
      rw [if_neg (by simpa using hne)]
      exact ⟨[], by rw [hp]⟩
    | cons q qs =>
      split_ifs
      · exact ⟨(q :: qs).dropLast, by rw [hp]; rfl⟩
      · exact ⟨q :: qs, by rw [hp]⟩

theorem firstLine_length_le (data : Bytes) : (firstLine data).length ≤ data.length := by
  unfold firstLine
  induction data with
  | nil => simp
  | cons b bs ih =>
    rw [List.takeWhile_cons]
    split
    · simp only [List.length_cons]; omega
    · simp

theorem firstLine_take (n : Nat) (data : Bytes) :
    firstLine (data.take n) = (firstLine data).take n := by
  unfold firstLine
  induction data generalizing n with
  | nil => simp
  | cons b bs ih =>
    cases n with
    | zero => simp
    | succ m =>
      rw [List.take_succ_cons, List.takeWhile_cons, List.takeWhile_cons]
      split
      · rw [List.take_succ_cons, ih]
      · simp

theorem limitReader_data (r : Reader) (n : Nat) : (limitReader r n).data = r.data.take n := by
  unfold limitReader
  split_ifs with h
  · rfl
  · rw [List.take_of_length_le (by omega)]

/-- What `readLineChannelByScanner` sends for a non-empty stream: the first
line of the first `MAX_LINE_LEN` bytes, less one trailing carriage return. -/
theorem readLine_nonempty (r : Reader) (h : r.data ≠ []) :
    (readLineChannelByScanner r).2
      = Except.ok (dropCR ((firstLine r.data).take MAX_LINE_LEN)) := by
  have hd : (limitReader r MAX_LINE_LEN).data ≠ [] := by
    rw [limitReader_data]
    cases hr : r.data with
    | nil => exact absurd hr h
    | cons b bs => simp [MAX_LINE_LEN]
  obtain ⟨rest, hraw⟩ := rawLines_head _ hd
  have hlen : ¬ maxScanTokenSize ≤ (firstLine (limitReader r MAX_LINE_LEN).data).length := by
    have h1 := firstLine_length_le (limitReader r MAX_LINE_LEN).data
    have h2 : (limitReader r MAX_LINE_LEN).data.length ≤ MAX_LINE_LEN := by
      rw [limitReader_data]; exact List.length_take_le _ _
    simp only [MAX_LINE_LEN, maxScanTokenSize] at *
    omega
  have ht : (newScanner (limitReader r MAX_LINE_LEN)).tokens
      = dropCR (firstLine (limitReader r MAX_LINE_LEN).data) :: (scanTokens rest).1 := by
    unfold newScanner
    simp only [hraw]
    rw [scanTokens, if_neg hlen]
  unfold readLineChannelByScanner
  simp only [ht]
  rw [limitReader_data, firstLine_take]

/-- What `readLineChannelByScanner` sends for an empty stream: the error of
the reader, or the end-of-input error. -/
theorem readLine_empty (r : Reader) (h : r.data = []) :
    (readLineChannelByScanner r).2
      = Except.error (match r.err with
          | some code => Failure.readError code
          | none => Failure.detectEOF) := by
  have hl : limitReader r MAX_LINE_LEN = r := by
    unfold limitReader
    rw [if_neg (by simp [h, MAX_LINE_LEN])]
  unfold readLineChannelByScanner
  rw [hl]
  have ht : (newScanner r).tokens = [] := by
    simp [newScanner, h, rawLines, splitByte, scanTokens]
  have he : (newScanner r).err = r.err.map Failure.readError := by
    simp [newScanner, h, rawLines, splitByte, scanTokens]
  simp only [ht, he]
  cases r.err <;> rfl

/-- Claim C10, as the program has it: `readLineChannelByScanner` reads at most
the first `MAX_LINE_LEN` = 768 bytes of the stream.  For a non-empty stream it
delivers the first line cut to 768 bytes, with one trailing carriage return
removed; this is the whole first line when that line has at most 768 bytes.
For an empty stream it delivers an error. -/
theorem readLine_first_line (r : Reader) :
    (r.data ≠ [] →
      (readLineChannelByScanner r).2 = Except.ok (dropCR ((firstLine r.data).take 768)))
    ∧ (r.data ≠ [] → (firstLine r.data).length ≤ 768 →
      (readLineChannelByScanner r).2 = Except.ok (dropCR (firstLine r.data)))
    ∧ (r.data = [] → ∃ e, (readLineChannelByScanner r).2 = Except.error e) := by
  refine ⟨fun h => readLine_nonempty r h, fun h hlen => ?_, fun h => ⟨_, readLine_empty r h⟩⟩
  rw [readLine_nonempty r h, MAX_LINE_LEN, List.take_of_length_le hlen]

set_option maxRecDepth 100000 in
/-- The secret `s3cr3t` typed on a terminal that ends lines with CR LF, and the
empty stream. -/
theorem readLine_first_line_witness :
    (readLineChannelByScanner { data := ascii "s3cr3t\r\nmore\n", err := none }).2
        = Except.ok (dropCR ((firstLine (ascii "s3cr3t\r\nmore\n")).take 768))
    ∧ (readLineChannelByScanner { data := ascii "s3cr3t\r\nmore\n", err := none }).2
        = Except.ok (dropCR (firstLine (ascii "s3cr3t\r\nmore\n")))
    ∧ dropCR (firstLine (ascii "s3cr3t\r\nmore\n")) = ascii "s3cr3t"
    ∧ ∃ e, (readLineChannelByScanner { data := [], err := none }).2 = Except.error e :=
  ⟨(readLine_first_line { data := ascii "s3cr3t\r\nmore\n", err := none }).1 (by decide),
   (readLine_first_line { data := ascii "s3cr3t\r\nmore\n", err := none }).2.1
      (by decide) (by decide),
   by decide,
   (readLine_first_line { data := [], err := none }).2.2 rfl⟩

set_option maxRecDepth 1000000 in
/-- Claim C10 fails for a long first line: of a stream of 769 letters `a` and a
newline, whose first line is the 769 letters, only 768 letters are delivered. -/
theorem readLine_long_counterexample :
    firstLine (List.replicate 769 97 ++ [10]) = List.replicate 769 97
    ∧ (readLineChannelByScanner { data := List.replicate 769 97 ++ [10], err := none }).2
        = Except.ok (List.replicate 768 97)
    ∧ (readLineChannelByScanner { data := List.replicate 769 97 ++ [10], err := none }).2
        ≠ Except.ok (firstLine (List.replicate 769 97 ++ [10])) := by
  decide

/-! ## A failed secret read -/

/-- When reading the secret fails `addPassword` returns that error and writes
nothing. -/
theorem addPassword_read_error (user realm : Bytes) (stdin : Reader) (e : Failure)
    (h : (readLineChannelByScanner stdin).2 = Except.error e) :
    (addPassword user realm stdin).out = [] ∧ (addPassword user realm stdin).err = some e := by
  rcases hr : readLineChannelByScanner stdin with ⟨l, res⟩
  rw [hr] at h
  simp only [] at h
  subst h
  have ha : addPassword user realm stdin =
      { out := [],
        log := Diag.text "TODO: Add Retype password feature" :: (l ++ [Diag.failure e]),
        err := some e } := by
    simp only [addPassword, hr]
  rw [ha]
  exact ⟨rfl, rfl⟩

/-- When `addPassword` fails, a pass writes a beginning of its input lines,
none of them a record for the target, and ends with the error of
`addPassword`, the length violation, or the error of the scanner. -/
theorem updateLoop_fail_shape (stdin : Reader) (user realm : Bytes) (scanErr : Option Failure)
    (e : Failure) (he : (addPassword user realm stdin).err = some e)
    (ho : (addPassword user realm stdin).out = []) (lines : List Bytes) :
    (∃ rest, lines = (updateLoop stdin user realm scanErr false lines).out ++ rest)
    ∧ (∀ l ∈ (updateLoop stdin user realm scanErr false lines).out, ¬ IsRecordFor user realm l)
    ∧ ((updateLoop stdin user realm scanErr false lines).err = some e
        ∨ (updateLoop stdin user realm scanErr false lines).err = some Failure.lengthViolation
        ∨ (scanErr ≠ none ∧ (updateLoop stdin user realm scanErr false lines).err = scanErr)) := by
  induction lines with
  | nil =>
    cases scanErr with
    | some e2 =>
      rw [updateLoop_nil_err]
      exact ⟨⟨[], rfl⟩, fun l hl => absurd hl (List.not_mem_nil l), Or.inr (Or.inr ⟨by simp, rfl⟩)⟩
    | none =>
      rw [updateLoop_nil]
      simp only [Run.andThen, ho, he, List.append_nil]
      exact ⟨⟨[], rfl⟩, fun l hl => absurd hl (List.not_mem_nil l), Or.inl trivial⟩
  | cons a rest ih =>
    by_cases hla : HasLongField a
    · rw [updateLoop_long _ _ _ _ _ _ hla]
      exact ⟨⟨a :: rest, rfl⟩, fun l hl => absurd hl (List.not_mem_nil l), Or.inr (Or.inl rfl)⟩
    · by_cases hra : IsRecordFor user realm a
      · rw [updateLoop_match _ _ _ _ _ _ hra hla]
        simp only [he, Option.isSome_some, if_true, Run.andThen, ho, List.append_nil]
        exact ⟨⟨a :: rest, rfl⟩, fun l hl => absurd hl (List.not_mem_nil l), Or.inl trivial⟩
      · rw [updateLoop_copy _ _ _ _ _ _ hra hla]
        simp only [Run.putline]
        obtain ⟨⟨r, hr⟩, hno, herr⟩ := ih
        refine ⟨⟨r, by rw [List.cons_append, ← hr]⟩, ?_, herr⟩
        intro l hl
        rcases List.mem_cons.1 hl with rfl | hl
        · exact hra
        · exact hno l hl

/-- Without a field longer than 255 bytes in the lines and without a scanner
error, a pass ends as its call of `addPassword` ends. -/
theorem updateLoop_err_eq (stdin : Reader) (user realm : Bytes) (lines : List Bytes)
    (hno : ∀ l ∈ lines, ¬ HasLongField l) :
    (updateLoop stdin user realm none false lines).err = (addPassword user realm stdin).err := by
  induction lines with
  | nil =>
    rw [updateLoop_nil]
    rfl
  | cons a rest ih =>
    have hla : ¬ HasLongField a := hno a (List.mem_cons_self _ _)
    by_cases hra : IsRecordFor user realm a
    · rw [updateLoop_match _ _ _ _ _ _ hra hla]
      cases hp : (addPassword user realm stdin).err with
      | none => simp [Run.andThen]
      | some e => simp [Run.andThen, hp]
    · rw [updateLoop_copy _ _ _ _ _ _ hra hla]
      simp only [Run.putline]
      exact ih (fun l hl => hno l (List.mem_cons_of_mem _ hl))

/-- A successful `makeHash` had printable arguments and returns the record line. -/
theorem makeHash_ok_eq (user realm password line : Bytes)
    (h : (makeHash user realm password).2 = Except.ok line) :
    Printable user ∧ Printable realm ∧ Printable password
      ∧ line = user ++ 58 :: (realm ++ [58])
          ++ hexEncode (md5 (user ++ 58 :: (realm ++ [58]) ++ password)) := by
  have hp : Printable user ∧ Printable realm ∧ Printable password := by
    by_contra hn
    have hb : HasBadChar user ∨ HasBadChar realm ∨ HasBadChar password := by
      simp only [hasBadChar_iff_not_printable]
      tauto
    obtain ⟨fld, hf⟩ := makeHash_bad user realm password hb
    rw [h] at hf
    cases hf
  refine ⟨hp.1, hp.2.1, hp.2.2, ?_⟩
  rw [makeHash_printable user realm password hp.1 hp.2.1 hp.2.2] at h
  simp only [Except.ok.injEq] at h
  exact h.symm

/-- The fields of the record line of a user and realm without a colon. -/
theorem splitColon_record (user realm digest : Bytes) (hcu : 58 ∉ user) (hcr : 58 ∉ realm) :
    splitColon (user ++ 58 :: (realm ++ [58]) ++ hexEncode digest)
      = [user, realm, hexEncode digest] := by
  have e : user ++ 58 :: (realm ++ [58]) ++ hexEncode digest
      = user ++ 58 :: (realm ++ 58 :: hexEncode digest) := by simp
  rw [e]
  unfold splitColon
  rw [splitByte_append 58 _ _ hcu, splitByte_append 58 _ _ hcr,
    splitByte_of_not_mem 58 _ (colon_not_mem_hexEncode _)]

/-- The line `makeHash` returns for a user and realm without a colon, the user
not starting with `#`, is a record for them by the rule of the rewrite, and
none of its fields is longer than the user and the realm. -/
theorem makeHash_isRecordFor (user realm password line : Bytes)
    (h : (makeHash user realm password).2 = Except.ok line)
    (hcu : 58 ∉ user) (hcr : 58 ∉ realm) (hhash : user.head? ≠ some 35) :
    IsRecordFor user realm line
      ∧ (user.length ≤ 255 → realm.length ≤ 255 → ¬ HasLongField line) := by
  obtain ⟨_, _, _, rfl⟩ := makeHash_ok_eq user realm password line h
  have hs := splitColon_record user realm
    (md5 (user ++ 58 :: (realm ++ [58]) ++ password)) hcu hcr
  have hne : user ++ 58 :: (realm ++ [58])
      ++ hexEncode (md5 (user ++ 58 :: (realm ++ [58]) ++ password)) ≠ [] := by
    cases user <;> simp
  have hhd : (user ++ 58 :: (realm ++ [58])
      ++ hexEncode (md5 (user ++ 58 :: (realm ++ [58]) ++ password))).head? ≠ some 35 := by
    cases user with
    | nil => simp
    | cons b bs => simpa using hhash
  constructor
  · exact ⟨hne, hhd, by rw [hs]; simp, by rw [hs]; rfl, by rw [hs]; rfl⟩
  · rintro hu hr ⟨_, _, _, hl⟩
    rw [hs] at hl
    simp only [List.getD_cons_zero, List.getD_cons_succ] at hl
    omega

/-- The first diagnostic of `addPassword` is its TODO line. -/
theorem addPassword_log_todo (user realm : Bytes) (stdin : Reader) :
    Diag.text "TODO: Add Retype password feature" ∈ (addPassword user realm stdin).log := by
  rcases hr : readLineChannelByScanner stdin with ⟨l, res⟩
  cases res with
  | error e => simp [addPassword, hr]
  | ok password =>
    rcases hm : makeHash user realm password with ⟨l2, res2⟩
    cases res2 <;> simp [addPassword, hr, hm]

/-- When `addPassword` fails, a pass either calls it, which shows in the
diagnostics, and ends with its error, or ends before with the length
violation or the error of the scanner. -/
theorem updateLoop_read_or_not (stdin : Reader) (user realm : Bytes)
    (scanErr : Option Failure) (e : Failure)
    (he : (addPassword user realm stdin).err = some e) (lines : List Bytes) :
    (Diag.text "TODO: Add Retype password feature"
          ∈ (updateLoop stdin user realm scanErr false lines).log
        ∧ (updateLoop stdin user realm scanErr false lines).err = some e)
    ∨ (Diag.text "TODO: Add Retype password feature"
          ∉ (updateLoop stdin user realm scanErr false lines).log
        ∧ ((updateLoop stdin user realm scanErr false lines).err = some Failure.lengthViolation
          ∨ (scanErr ≠ none
              ∧ (updateLoop stdin user realm scanErr false lines).err = scanErr))) := by
  have ht := addPassword_log_todo user realm stdin
  induction lines with
  | nil =>
    cases scanErr with
    | some e2 =>
      rw [updateLoop_nil_err]
      exact Or.inr ⟨List.not_mem_nil _, Or.inr ⟨by simp, rfl⟩⟩
    | none =>
      rw [updateLoop_nil]
      exact Or.inl ⟨List.mem_append_right _ ht, he⟩
  | cons a rest ih =>
    by_cases hla : HasLongField a
    · rw [updateLoop_long _ _ _ _ _ _ hla]
      exact Or.inr ⟨List.not_mem_nil _, Or.inl rfl⟩
    · by_cases hra : IsRecordFor user realm a
      · rw [updateLoop_match _ _ _ _ _ _ hra hla, he]
        exact Or.inl ⟨List.mem_append_right _ ht, he⟩
      · rw [updateLoop_copy _ _ _ _ _ _ hra hla]
        exact ih

/-- Claim C11: when reading the secret fails (end of input or read error),
`addPassword` writes nothing to its output and returns that error, and a run
of `updateTempPasswordFile` that reads the secret (it calls `addPassword`,
which shows as the first diagnostic line of `addPassword`) returns that error.
No record is written: the output is a beginning of the input lines, copied,
none of them a record for the target, and for a user and realm without a
colon, the user not starting with `#`, no line of it equals a record that
`makeHash` produces for the target.  The secret is read in every run without
a field over 255 bytes and without a scanner error; a run that does not read
it has ended with the length violation or the error of the scanner. -/
theorem secret_read_failure (f stdin : Reader) (user realm : Bytes) (e : Failure)
    (h : (readLineChannelByScanner stdin).2 = Except.error e) :
    ((addPassword user realm stdin).out = [] ∧ (addPassword user realm stdin).err = some e)
    ∧ (Diag.text "TODO: Add Retype password feature"
          ∈ (updateTempPasswordFile f stdin user realm).log →
        (updateTempPasswordFile f stdin user realm).err = some e)
    ∧ (∃ rest, (newScanner f).tokens = (updateTempPasswordFile f stdin user realm).out ++ rest)
    ∧ (∀ l ∈ (updateTempPasswordFile f stdin user realm).out, ¬ IsRecordFor user realm l)
    ∧ (58 ∉ user → 58 ∉ realm → user.head? ≠ some 35 →
        ∀ s line, (makeHash user realm s).2 = Except.ok line →
          line ∉ (updateTempPasswordFile f stdin user realm).out)
    ∧ ((∀ l ∈ (newScanner f).tokens, ¬ HasLongField l) → (newScanner f).err = none →
        Diag.text "TODO: Add Retype password feature"
            ∈ (updateTempPasswordFile f stdin user realm).log
          ∧ (updateTempPasswordFile f stdin user realm).err = some e)
    ∧ (Diag.text "TODO: Add Retype password feature"
          ∉ (updateTempPasswordFile f stdin user realm).log →
        (updateTempPasswordFile f stdin user realm).err = some Failure.lengthViolation
          ∨ ((newScanner f).err ≠ none
              ∧ (updateTempPasswordFile f stdin user realm).err = (newScanner f).err)) := by
  obtain ⟨ho, he⟩ := addPassword_read_error user realm stdin e h
  obtain ⟨h1, h2, _⟩ := updateLoop_fail_shape stdin user realm (newScanner f).err e he ho
    (newScanner f).tokens
  have hcall := updateLoop_read_or_not stdin user realm (newScanner f).err e he
    (newScanner f).tokens
  have hread : Diag.text "TODO: Add Retype password feature"
        ∈ (updateTempPasswordFile f stdin user realm).log →
      (updateTempPasswordFile f stdin user realm).err = some e := by
    intro hin
    rcases hcall with ⟨_, herr⟩ | ⟨hnot, _⟩
    · exact herr
    · exact absurd hin hnot
  refine ⟨⟨ho, he⟩, hread, h1, h2, ?_, ?_, ?_⟩
  · intro hcu hcr hhash s line hm hmem
    exact h2 line hmem (makeHash_isRecordFor user realm s line hm hcu hcr hhash).1
  · intro hno hs
    have herr : (updateTempPasswordFile f stdin user realm).err = some e := by
      unfold updateTempPasswordFile
      rw [hs, updateLoop_err_eq stdin user realm _ hno, he]
    refine ⟨?_, herr⟩
    rcases hcall with ⟨hin, _⟩ | ⟨_, hlv | ⟨hne, _⟩⟩
    · exact hin
    · have hlv2 : (updateTempPasswordFile f stdin user realm).err
          = some Failure.lengthViolation := hlv
      rw [herr] at hlv2
      simp only [Option.some.injEq] at hlv2
      exact absurd hlv2 (readLine_error_ne stdin (readLineChannelByScanner stdin).1 e
        (by rw [← h]))
    · exact absurd hs hne
  · intro hnot
    rcases hcall with ⟨hin, _⟩ | ⟨_, hrest⟩
    · exact absurd hin hnot
    · exact hrest

set_option maxRecDepth 100000 in
/-- An empty standard input with a file of a comment and the record of `u` in
`r`: the secret is read at the record, the run returns the end-of-input error,
and only the comment is written. -/
theorem secret_read_failure_witness :
    (readLineChannelByScanner { data := [], err := none }).2 = Except.error Failure.detectEOF
    ∧ Diag.text "TODO: Add Retype password feature"
        ∈ (updateTempPasswordFile { data := ascii "# c\nu:r:1\n", err := none }
            { data := [], err := none } (ascii "u") (ascii "r")).log
    ∧ (updateTempPasswordFile { data := ascii "# c\nu:r:1\n", err := none }
        { data := [], err := none } (ascii "u") (ascii "r")).err = some Failure.detectEOF
    ∧ (updateTempPasswordFile { data := ascii "# c\nu:r:1\n", err := none }
        { data := [], err := none } (ascii "u") (ascii "r")).out = [ascii "# c"] :=
  ⟨by decide, by decide,
   (secret_read_failure { data := ascii "# c\nu:r:1\n", err := none }
      { data := [], err := none } (ascii "u") (ascii "r") Failure.detectEOF (by decide)).2.1
      (by decide),
   by decide⟩

/-! ## The records written -/

theorem splitByte_no_sep (sep : Nat) (s : Bytes) : ∀ p ∈ splitByte sep s, sep ∉ p := by
  induction s with
  | nil =>
    intro p hp
    simp only [splitByte, List.mem_singleton] at hp
    rw [hp]
    exact List.not_mem_nil sep
  | cons c cs ih =>
    intro p hp
    unfold splitByte at hp
    by_cases hc : c = sep
    · rw [if_pos hc] at hp
      rcases List.mem_cons.1 hp with rfl | hp
      · exact List.not_mem_nil sep
      · exact ih p hp
    · rw [if_neg hc] at hp
      cases hs : splitByte sep cs with
      | nil => exact absurd hs (splitByte_ne_nil sep cs)
      | cons q qs =>
        rw [hs] at hp ih
        rcases List.mem_cons.1 hp with rfl | hp
        · intro hm
          rcases List.mem_cons.1 hm with e | hm
          · exact hc e.symm
          · exact ih q (List.mem_cons_self _ _) hm
        · exact ih p (List.mem_cons_of_mem _ hp)

theorem getD_mem_of_lt (l : List Bytes) (i : Nat) (h : i < l.length) : l.getD i [] ∈ l := by
  induction l generalizing i with
  | nil => simp at h
  | cons a as ih =>
    cases i with
    | zero => simp
    | succ j =>
      simp only [List.getD_cons_succ]
      exact List.mem_cons_of_mem _ (ih j (by simpa using h))

/-- The fields of a record for the target have no colon. -/
theorem record_fields_no_colon (user realm line : Bytes) (h : IsRecordFor user realm line) :
    58 ∉ user ∧ 58 ∉ realm := by
  obtain ⟨_, _, h3, h4, h5⟩ := h
  unfold splitColon at h3 h4 h5
  constructor
  · rw [← h4]
    exact splitByte_no_sep 58 line _ (getD_mem_of_lt _ 0 (by omega))
  · rw [← h5]
    exact splitByte_no_sep 58 line _ (getD_mem_of_lt _ 1 (by omega))

/-- Claim C12, as the program has it: every record line written (all are
written by `addPassword` with the line of `makeHash`) has a user and a realm of
printable ASCII only; their length and the absence of a colon are not checked.
In the change-password path the user and realm are fields of an input line
that passed the length check, so there they have at most 255 bytes and no
colon. -/
theorem written_record_invariant (f stdin : Reader) (user realm : Bytes) :
    (∀ line ∈ (addPassword user realm stdin).out,
        Printable user ∧ Printable realm
        ∧ ∃ secret, line = user ++ ascii ":" ++ realm ++ ascii ":"
            ++ hexEncode (md5 (user ++ ascii ":" ++ realm ++ ascii ":" ++ secret)))
    ∧ ((∃ l ∈ (newScanner f).tokens, IsRecordFor user realm l) →
        (updateTempPasswordFile f stdin user realm).err = none →
        user.length ≤ 255 ∧ realm.length ≤ 255 ∧ 58 ∉ user ∧ 58 ∉ realm
          ∧ Printable user ∧ Printable realm) := by
  constructor
  · intro line hline
    rcases addPassword_cases user realm stdin with
      ⟨e, _, _, ho, _⟩ | ⟨secret, l, _, h2, h3, _⟩
    · rw [ho] at hline
      exact absurd hline (List.not_mem_nil line)
    · rw [h3, List.mem_singleton] at hline
      subst hline
      obtain ⟨pu, pr, _, e⟩ := makeHash_ok_eq user realm secret line h2
      exact ⟨pu, pr, secret, by rw [e]; simp [ascii]⟩
  · intro hrec hok
    obtain ⟨pre, old, post, e, hpre, hold⟩ := exists_first_record user realm _ hrec
    have hnl : ¬ HasLongField old := by
      intro hl
      have := (updateLoop_lengthViolation_iff stdin user realm (newScanner f).err
        (newScanner_err_ne f) (newScanner f).tokens).2 ⟨pre, old, post, e, hpre, hl⟩
      unfold updateTempPasswordFile at hok
      rw [this] at hok
      cases hok
    unfold updateTempPasswordFile at hok
    rw [e] at hok
    obtain ⟨_, secret, line, _, h2, _⟩ := updateLoop_update _ _ _ _ pre old post hpre hold hok
    obtain ⟨pu, pr, _, _⟩ := makeHash_ok_eq user realm secret line h2
    obtain ⟨c1, c2⟩ := record_fields_no_colon user realm old hold
    obtain ⟨a1, a2, a3, a4, a5⟩ := hold
    have hlen : ¬ (255 < ((splitColon old).getD 0 []).length
        ∨ 255 < ((splitColon old).getD 1 []).length) := fun c => hnl ⟨a1, a2, a3, c⟩
    rw [a4, a5] at hlen
    exact ⟨by omega, by omega, c1, c2, pu, pr⟩

set_option maxRecDepth 100000 in
/-- The record of `alice` in `myrealm` replaced: the invariant holds in full. -/
theorem written_record_invariant_witness :
    (ascii "alice").length ≤ 255 ∧ (ascii "myrealm").length ≤ 255
      ∧ 58 ∉ ascii "alice" ∧ 58 ∉ ascii "myrealm"
      ∧ Printable (ascii "alice") ∧ Printable (ascii "myrealm") :=
  (written_record_invariant { data := ascii "alice:myrealm:0123\n# comment\n", err := none }
    { data := ascii "new\n", err := none } (ascii "alice") (ascii "myrealm")).2
    (by decide) (by decide)

set_option maxRecDepth 100000 in
/-- Claim C12 fails as stated: create mode with the user `a:b` succeeds and
writes a record whose user has a colon, and the add path with a user of 256
bytes succeeds and writes a record whose user is longer than 255 bytes. -/
theorem written_record_counterexample :
    (main Env.allOk [ascii "htdigest", ascii "-c", ascii "f", ascii "r", ascii "a:b"]
        ({ data := ascii "pw\n", err := none }) none).code = 0
    ∧ (main Env.allOk [ascii "htdigest", ascii "-c", ascii "f", ascii "r", ascii "a:b"]
        ({ data := ascii "pw\n", err := none }) none).target
      = some (ascii "a:b:r:c0e970bf6deda39f2ceabf2b3decb98e\n")
    ∧ 58 ∈ ascii "a:b"
    ∧ (updateTempPasswordFile { data := [], err := none } { data := ascii "pw\n", err := none }
        (List.replicate 256 97) (ascii "r")).err = none
    ∧ (updateTempPasswordFile { data := [], err := none } { data := ascii "pw\n", err := none }
        (List.replicate 256 97) (ascii "r")).out.map (fun l => l.take 257)
      = [List.replicate 256 97 ++ ascii ":"]
    ∧ 255 < (List.replicate 256 97).length := by
  decide

/-! ## Create mode, the temporary file and the diagnostics -/

/-- The run of `main` in create mode once the file is created. -/
theorem main_create_eq (env : Env) (args : List Bytes) (stdin : Reader) (target : Option Bytes)
    (hargs : args.length = 5) (hflag : args.getD 1 [] = ascii "-c")
    (hcreate : env.createOk = true) :
    (main env args stdin target).code
        = (if (addPassword (args.getD 4 []) (args.getD 3 []) stdin).err.isSome then 1 else 0)
    ∧ (main env args stdin target).target
        = some (fileContent (addPassword (args.getD 4 []) (args.getD 3 []) stdin).out) := by
  unfold main
  rw [if_pos hargs, if_neg (not_not.2 hflag), if_neg (by rw [hcreate]; simp)]
  exact ⟨rfl, rfl⟩

/-- Claim C13: a successful run with `-c` leaves the file with exactly one
line, the line of `makeHash` for the user, the realm and the secret read,
followed by a newline, whatever the file held before. -/
theorem create_writes_single_record (env : Env) (args : List Bytes) (stdin : Reader)
    (target : Option Bytes) (hargs : args.length = 5)
    (hok : (main env args stdin target).code = 0) :
    ∃ secret line,
      (readLineChannelByScanner stdin).2 = Except.ok secret
      ∧ (makeHash (args.getD 4 []) (args.getD 3 []) secret).2 = Except.ok line
      ∧ (main env args stdin target).target = some (line ++ ascii "\n")
      ∧ ∀ prior, (main env args stdin prior).target = some (line ++ ascii "\n") := by
  have hflag : args.getD 1 [] = ascii "-c" := by
    by_contra hc
    unfold main at hok
    rw [if_pos hargs, if_pos hc] at hok
    cases hok
  have hcreate : env.createOk = true := by
    by_contra hc
    unfold main at hok
    rw [if_pos hargs, if_neg (not_not.2 hflag), if_pos (by simpa using hc)] at hok
    cases hok
  rw [(main_create_eq env args stdin target hargs hflag hcreate).1] at hok
  rcases addPassword_cases (args.getD 4 []) (args.getD 3 []) stdin with
    ⟨e, he, _, _, _⟩ | ⟨secret, line, h1, h2, h3, _⟩
  · rw [he] at hok
    cases hok
  · refine ⟨secret, line, h1, h2, ?_, fun prior => ?_⟩
    · rw [(main_create_eq env args stdin target hargs hflag hcreate).2, h3]
      rfl
    · rw [(main_create_eq env args stdin prior hargs hflag hcreate).2, h3]
      rfl

set_option maxRecDepth 100000 in
/-- Scenario C of the specification: `-c` on a file that holds two records. -/
theorem create_writes_single_record_witness :
    ∃ secret line,
      (readLineChannelByScanner { data := ascii "s3cr3t\n", err := none }).2 = Except.ok secret
      ∧ (makeHash ([ascii "htdigest", ascii "-c", ascii "f", ascii "myrealm", ascii "alice"].getD
            4 [])
          ([ascii "htdigest", ascii "-c", ascii "f", ascii "myrealm", ascii "alice"].getD 3 [])
          secret).2 = Except.ok line
      ∧ (main Env.allOk [ascii "htdigest", ascii "-c", ascii "f", ascii "myrealm", ascii "alice"]
          ({ data := ascii "s3cr3t\n", err := none }) (some (ascii "bob:r:1\ncarol:r:2\n"))).target
        = some (line ++ ascii "\n")
      ∧ ∀ prior,
        (main Env.allOk [ascii "htdigest", ascii "-c", ascii "f", ascii "myrealm", ascii "alice"]
          ({ data := ascii "s3cr3t\n", err := none }) prior).target = some (line ++ ascii "\n") :=
  create_writes_single_record Env.allOk
    [ascii "htdigest", ascii "-c", ascii "f", ascii "myrealm", ascii "alice"]
    ({ data := ascii "s3cr3t\n", err := none }) (some (ascii "bob:r:1\ncarol:r:2\n"))
    (by decide) (by decide)

set_option maxRecDepth 100000 in
/-- Scenario C of the specification, evaluated: the file after the run. -/
theorem scenario_create :
    (main Env.allOk [ascii "htdigest", ascii "-c", ascii "f", ascii "myrealm", ascii "alice"]
      ({ data := ascii "s3cr3t\n", err := none }) (some (ascii "bob:r:1\ncarol:r:2\n"))).target
      = some (ascii "alice:myrealm:b0dc4b58f7bb84cac9807fa0d359658f\n") := by
  decide

/-- Claim C14 does not hold on the program: in update mode, once the
temporary file is created, every run that ends with status 1 ends through
`os.Exit` or `log.Fatal`, which skip the deferred removal, and the temporary
file is still there; only the successful run removes it. -/
theorem temp_file_left_behind (env : Env) (args : List Bytes) (stdin : Reader)
    (target : Option Bytes) (hargs : args.length = 4)
    (hdir : env.tempDirOk = true) (htemp : env.tempOk = true) :
    ((main env args stdin target).code = 1 → (main env args stdin target).temp ≠ none)
    ∧ ((main env args stdin target).code = 0 → (main env args stdin target).temp = none) := by
  unfold main
  rw [if_neg (by omega), if_neg (by omega), if_neg (by rw [hdir]; simp),
    if_neg (by rw [htemp]; simp)]
  cases target with
  | none =>
    split_ifs <;> exact ⟨fun _ => by simp, fun h => by cases h⟩
  | some content =>
    cases env.openOk with
    | false => exact ⟨fun _ => by simp, fun h => by cases h⟩
    | true =>
      simp only [if_true]
      cases hp : (updateTempPasswordFile { data := content, err := env.readErr } stdin
        (args.getD 3 []) (args.getD 2 [])).err with
      | some e =>
        cases e <;> exact ⟨fun _ => by simp, fun h => by cases h⟩
      | none =>
        simp only []
        split_ifs <;> simp

set_option maxRecDepth 100000 in
/-- An empty standard input in update mode: the run ends with status 1 and the
temporary file is still there. -/
theorem temp_file_left_behind_witness :
    (main Env.allOk [ascii "htdigest", ascii "f", ascii "r", ascii "u"]
        ({ data := [], err := none }) (some (ascii "# c\n"))).code = 1
    ∧ (main Env.allOk [ascii "htdigest", ascii "f", ascii "r", ascii "u"]
        ({ data := [], err := none }) (some (ascii "# c\n"))).temp ≠ none :=
  ⟨by decide,
   (temp_file_left_behind Env.allOk [ascii "htdigest", ascii "f", ascii "r", ascii "u"]
      ({ data := [], err := none }) (some (ascii "# c\n")) (by decide) rfl rfl).1 (by decide)⟩

/-- Claim C15 does not hold on the program: whenever the secret is read,
`addPassword` prints the secret itself and its hexadecimal encoding on the
error stream. -/
theorem secret_logged (user realm : Bytes) (stdin : Reader) (secret : Bytes)
    (h : (readLineChannelByScanner stdin).2 = Except.ok secret) :
    Diag.value secret ∈ (addPassword user realm stdin).log
    ∧ Diag.value (hexEncode secret) ∈ (addPassword user realm stdin).log := by
  rcases hr : readLineChannelByScanner stdin with ⟨l, res⟩
  rw [hr] at h
  simp only [] at h
  subst h
  rcases hm : makeHash user realm secret with ⟨l2, res2⟩
  cases res2 <;> simp [addPassword, hr, hm]

set_option maxRecDepth 100000 in
/-- The secrets `a` and `b` for the same user and realm: the diagnostics of
`addPassword` hold the secret and differ. -/
theorem secret_logged_witness :
    (Diag.value (ascii "a") ∈ (addPassword (ascii "u") (ascii "r")
        { data := ascii "a\n", err := none }).log
      ∧ Diag.value (hexEncode (ascii "a")) ∈ (addPassword (ascii "u") (ascii "r")
        { data := ascii "a\n", err := none }).log)
    ∧ (addPassword (ascii "u") (ascii "r") { data := ascii "a\n", err := none }).log
      ≠ (addPassword (ascii "u") (ascii "r") { data := ascii "b\n", err := none }).log :=
  ⟨secret_logged (ascii "u") (ascii "r") { data := ascii "a\n", err := none } (ascii "a")
    (by decide), by decide⟩

/-! ## The bytes of the output -/

theorem fileContent_append (a b : List Bytes) :
    fileContent (a ++ b) = fileContent a ++ fileContent b := by
  induction a with
  | nil => rfl
  | cons l ls ih => simp [fileContent, ih]

theorem splitByte_concat_sep (sep : Nat) (s : Bytes) :
    splitByte sep (s ++ [sep]) = splitByte sep s ++ [[]] := by
  induction s with
  | nil => simp [splitByte]
  | cons c cs ih =>
    rw [List.cons_append]
    unfold splitByte
    by_cases hc : c = sep
    · rw [if_pos hc, if_pos hc, ih]
      rfl
    · rw [if_neg hc, if_neg hc, ih]
      cases hs : splitByte sep cs with
      | nil => exact absurd hs (splitByte_ne_nil sep cs)
      | cons p ps => rfl

theorem fileContent_splitByte (s : Bytes) : fileContent (splitByte 10 s) = s ++ [10] := by
  induction s with
  | nil => rfl
  | cons c cs ih =>
    unfold splitByte
    by_cases hc : c = 10
    · rw [if_pos hc, hc]
      simp [fileContent, ih]
    · rw [if_neg hc]
      cases hs : splitByte 10 cs with
      | nil => exact absurd hs (splitByte_ne_nil 10 cs)
      | cons p ps =>
        rw [hs] at ih
        simp only [fileContent, List.cons_append] at ih ⊢
        rw [ih]

/-- The raw lines of data that ends in a newline, written back each with a
newline, are the data. -/
theorem fileContent_rawLines (body : Bytes) :
    fileContent (rawLines (body ++ [10])) = body ++ [10] := by
  unfold rawLines
  simp only [splitByte_concat_sep, List.getLast?_concat, if_true, List.dropLast_concat]
  exact fileContent_splitByte body

theorem dropCR_eq_self (l : Bytes) (h : l.getLast? ≠ some 13) : dropCR l = l := by
  unfold dropCR
  rw [if_neg h]

/-- When the scan ends without `ErrTooLong`, every raw line is delivered. -/
theorem scanTokens_all (raws : List Bytes) (h : (scanTokens raws).2 = false) :
    (scanTokens raws).1 = raws.map dropCR := by
  induction raws with
  | nil => rfl
  | cons r rs ih =>
    unfold scanTokens at h ⊢
    by_cases hl : maxScanTokenSize ≤ r.length
    · rw [if_pos hl] at h
      cases h
    · rw [if_neg hl] at h ⊢
      simp only [List.map_cons, List.cons.injEq, true_and]
      exact ih h

theorem map_dropCR_eq_self (raws : List Bytes) (h : ∀ l ∈ raws, l.getLast? ≠ some 13) :
    raws.map dropCR = raws := by
  induction raws with
  | nil => rfl
  | cons r rs ih =>
    rw [List.map_cons, dropCR_eq_self r (h r (List.mem_cons_self _ _)),
      ih (fun l hl => h l (List.mem_cons_of_mem _ hl))]

theorem newScanner_tokens_of_ok (f : Reader) (h : (newScanner f).err = none) :
    (newScanner f).tokens = (rawLines f.data).map dropCR := by
  unfold newScanner at h ⊢
  simp only [] at h ⊢
  apply scanTokens_all
  by_contra hc
  rw [if_pos (by simpa using hc)] at h
  cases h

/-- Claim C16, as the program has it: when no input line is a record for the
target and the run succeeds, the output bytes are the scanned lines, each
followed by a newline, and then the record line and a newline.  A carriage
return before a newline is dropped and a missing final newline is added; the
output is the input bytes followed by the record line and a newline when the
input is empty or ends in a newline and none of its lines ends in a carriage
return. -/
theorem add_output_bytes (f stdin : Reader) (user realm : Bytes)
    (hno : ∀ l ∈ (newScanner f).tokens, ¬ IsRecordFor user realm l)
    (hok : (updateTempPasswordFile f stdin user realm).err = none) :
    ∃ secret line,
      (readLineChannelByScanner stdin).2 = Except.ok secret
      ∧ (makeHash user realm secret).2 = Except.ok line
      ∧ fileContent (updateTempPasswordFile f stdin user realm).out
          = fileContent ((rawLines f.data).map dropCR) ++ line ++ ascii "\n"
      ∧ ((f.data = [] ∨ ∃ body, f.data = body ++ ascii "\n") →
          (∀ raw ∈ rawLines f.data, raw.getLast? ≠ some 13) →
          fileContent (updateTempPasswordFile f stdin user realm).out
            = f.data ++ line ++ ascii "\n") := by
  unfold updateTempPasswordFile at hok ⊢
  obtain ⟨hs, secret, line, h1, h2, h3⟩ := updateLoop_add _ _ _ _ _ hno hok
  have ht := newScanner_tokens_of_ok f hs
  have hbytes : fileContent (updateLoop stdin user realm (newScanner f).err false
      (newScanner f).tokens).out
      = fileContent ((rawLines f.data).map dropCR) ++ line ++ ascii "\n" := by
    rw [h3, ht, fileContent_append]
    simp [fileContent, ascii]
  refine ⟨secret, line, h1, h2, hbytes, ?_⟩
  intro hend hcr
  rw [hbytes, map_dropCR_eq_self _ hcr]
  rcases hend with hd | ⟨body, hd⟩
  · rw [hd]
    rfl
  · rw [hd]
    have : ascii "\n" = [10] := rfl
    rw [this, fileContent_rawLines]

set_option maxRecDepth 100000 in
/-- A file of a comment and a record of another user, ending in a newline. -/
theorem add_output_bytes_witness :
    ∃ secret line,
      (readLineChannelByScanner { data := ascii "pw\n", err := none }).2 = Except.ok secret
      ∧ (makeHash (ascii "u") (ascii "r") secret).2 = Except.ok line
      ∧ fileContent (updateTempPasswordFile { data := ascii "# c\nbob:r:1\n", err := none }
          { data := ascii "pw\n", err := none } (ascii "u") (ascii "r")).out
          = fileContent ((rawLines
              ({ data := ascii "# c\nbob:r:1\n", err := none } : Reader).data).map dropCR)
            ++ line ++ ascii "\n"
      ∧ ((({ data := ascii "# c\nbob:r:1\n", err := none } : Reader).data = []
            ∨ ∃ body, ({ data := ascii "# c\nbob:r:1\n", err := none } : Reader).data
                = body ++ ascii "\n") →
          (∀ raw ∈ rawLines ({ data := ascii "# c\nbob:r:1\n", err := none } : Reader).data,
            raw.getLast? ≠ some 13) →
          fileContent (updateTempPasswordFile { data := ascii "# c\nbob:r:1\n", err := none }
            { data := ascii "pw\n", err := none } (ascii "u") (ascii "r")).out
            = ({ data := ascii "# c\nbob:r:1\n", err := none } : Reader).data
              ++ line ++ ascii "\n") :=
  add_output_bytes { data := ascii "# c\nbob:r:1\n", err := none }
    { data := ascii "pw\n", err := none } (ascii "u") (ascii "r") (by decide) (by decide)

set_option maxRecDepth 100000 in
/-- Claim C16 fails as stated: a comment line ending in CR LF is written with
LF only, and a comment without a final newline is written with one, so the
output is not the input bytes followed by the record line. -/
theorem add_output_bytes_counterexample :
    (updateTempPasswordFile { data := ascii "# c\r\n", err := none }
        { data := ascii "pw\n", err := none } (ascii "u") (ascii "r")).err = none
    ∧ (makeHash (ascii "u") (ascii "r") (ascii "pw")).2
        = Except.ok (ascii "u:r:16cf8470b801169c6eade4e217f239e9")
    ∧ fileContent (updateTempPasswordFile { data := ascii "# c\r\n", err := none }
        { data := ascii "pw\n", err := none } (ascii "u") (ascii "r")).out
        = ascii "# c\nu:r:16cf8470b801169c6eade4e217f239e9\n"
    ∧ fileContent (updateTempPasswordFile { data := ascii "# c\r\n", err := none }
        { data := ascii "pw\n", err := none } (ascii "u") (ascii "r")).out
        ≠ ascii "# c\r\n" ++ ascii "u:r:16cf8470b801169c6eade4e217f239e9" ++ ascii "\n"
    ∧ (updateTempPasswordFile { data := ascii "# c", err := none }
        { data := ascii "pw\n", err := none } (ascii "u") (ascii "r")).err = none
    ∧ fileContent (updateTempPasswordFile { data := ascii "# c", err := none }
        { data := ascii "pw\n", err := none } (ascii "u") (ascii "r")).out
        ≠ ascii "# c" ++ ascii "u:r:16cf8470b801169c6eade4e217f239e9" ++ ascii "\n" := by
  decide

/-! ## Running the rewrite again -/

/-- When the secret is read and `makeHash` accepts it, `addPassword` writes
the record line and returns nil. -/
theorem addPassword_ok (user realm : Bytes) (stdin : Reader) (secret line : Bytes)
    (h1 : (readLineChannelByScanner stdin).2 = Except.ok secret)
    (h2 : (makeHash user realm secret).2 = Except.ok line) :
    (addPassword user realm stdin).out = [line] ∧ (addPassword user realm stdin).err = none := by
  rcases hr : readLineChannelByScanner stdin with ⟨l, res⟩
  rw [hr] at h1
  simp only [] at h1
  subst h1
  rcases hm : makeHash user realm secret with ⟨l2, res2⟩
  rw [hm] at h2
  simp only [] at h2
  subst h2
  have ha : addPassword user realm stdin =
      { out := [line],
        log := Diag.text "TODO: Add Retype password feature" ::
          (l ++ [Diag.value secret, Diag.value (hexEncode secret)]) ++ l2,
        err := none } := by
    simp only [addPassword, hr, hm]
  rw [ha]
  exact ⟨rfl, rfl⟩

/-- When the secret is read and `makeHash` rejects an argument, `addPassword`
ends with that fatal exit and writes nothing. -/
theorem addPassword_hash_error (user realm : Bytes) (stdin : Reader) (secret : Bytes)
    (e : Failure) (h1 : (readLineChannelByScanner stdin).2 = Except.ok secret)
    (h2 : (makeHash user realm secret).2 = Except.error e) :
    (addPassword user realm stdin).out = [] ∧ (addPassword user realm stdin).err = some e := by
  rcases hr : readLineChannelByScanner stdin with ⟨l, res⟩
  rw [hr] at h1
  simp only [] at h1
  subst h1
  rcases hm : makeHash user realm secret with ⟨l2, res2⟩
  rw [hm] at h2
  simp only [] at h2
  subst h2
  have ha : addPassword user realm stdin =
      { out := [],
        log := Diag.text "TODO: Add Retype password feature" ::
          (l ++ [Diag.value secret, Diag.value (hexEncode secret)]) ++ l2,
        err := some e } := by
    simp only [addPassword, hr, hm]
  rw [ha]
  exact ⟨rfl, rfl⟩

/-- The shape of the output of a successful pass: lines that are neither a
record for the target nor too long, the new record, and the remaining lines;
all lines around the new record are input lines. -/
theorem updateLoop_ok_shape (stdin : Reader) (user realm : Bytes) (scanErr : Option Failure)
    (lines : List Bytes)
    (hok : (updateLoop stdin user realm scanErr false lines).err = none) :
    scanErr = none ∧ ∃ before after secret line,
      (readLineChannelByScanner stdin).2 = Except.ok secret
      ∧ (makeHash user realm secret).2 = Except.ok line
      ∧ (updateLoop stdin user realm scanErr false lines).out = before ++ line :: after
      ∧ (∀ l ∈ before, ¬ IsRecordFor user realm l ∧ ¬ HasLongField l)
      ∧ (∀ l ∈ before ++ after, l ∈ lines) := by
  induction lines with
  | nil =>
    cases scanErr with
    | some e => rw [updateLoop_nil_err] at hok; cases hok
    | none =>
      rw [updateLoop_nil] at hok ⊢
      rcases addPassword_cases user realm stdin with
        ⟨e, he, _, _, _⟩ | ⟨secret, line, h1, h2, h3, h4⟩
      · simp [he, Run.andThen] at hok
      · exact ⟨rfl, [], [], secret, line, h1, h2, by simp [Run.andThen, h3],
          fun l hl => absurd hl (List.not_mem_nil l), fun l hl => by simp at hl⟩
  | cons a rest ih =>
    by_cases hla : HasLongField a
    · rw [updateLoop_long _ _ _ _ _ _ hla] at hok
      cases hok
    · by_cases hra : IsRecordFor user realm a
      · rw [updateLoop_match _ _ _ _ _ _ hra hla] at hok ⊢
        rcases addPassword_cases user realm stdin with
          ⟨e, he, _, _, _⟩ | ⟨secret, line, h1, h2, h3, h4⟩
        · simp [he, Run.andThen] at hok
        · simp only [h4, Option.isSome_none, Bool.false_eq_true, ↓reduceIte, Run.andThen]
            at hok ⊢
          refine ⟨hok, [], rest, secret, line, h1, h2, by simp [h3],
            fun l hl => absurd hl (List.not_mem_nil l), fun l hl => ?_⟩
          exact List.mem_cons_of_mem _ (by simpa using hl)
      · rw [updateLoop_copy _ _ _ _ _ _ hra hla] at hok ⊢
        simp only [Run.putline] at hok ⊢
        obtain ⟨hs, before, after, secret, line, h1, h2, h3, h4, h5⟩ := ih hok
        refine ⟨hs, a :: before, after, secret, line, h1, h2, by rw [h3]; rfl, ?_, ?_⟩
        · intro l hl
          rcases List.mem_cons.1 hl with rfl | hl
          · exact ⟨hra, hla⟩
          · exact h4 l hl
        · intro l hl
          rw [List.cons_append] at hl
          rcases List.mem_cons.1 hl with rfl | hl
          · exact List.mem_cons_self _ _
          · exact List.mem_cons_of_mem _ (h5 l hl)

/-- A pass over lines of that shape writes them again. -/
theorem updateLoop_rerun (stdin : Reader) (user realm : Bytes) (before after : List Bytes)
    (line : Bytes)
    (hb : ∀ l ∈ before, ¬ IsRecordFor user realm l ∧ ¬ HasLongField l)
    (hrec : IsRecordFor user realm line) (hlong : ¬ HasLongField line)
    (ho : (addPassword user realm stdin).out = [line])
    (he : (addPassword user realm stdin).err = none) :
    (updateLoop stdin user realm none false (before ++ line :: after)).err = none
    ∧ (updateLoop stdin user realm none false (before ++ line :: after)).out
        = before ++ line :: after := by
  induction before with
  | nil =>
    rw [List.nil_append, updateLoop_match _ _ _ _ _ _ hrec hlong]
    simp [he, ho, Run.andThen]
  | cons a rest ih =>
    obtain ⟨h1, h2⟩ := hb a (List.mem_cons_self _ _)
    rw [List.cons_append, updateLoop_copy _ _ _ _ _ _ h1 h2]
    simp only [Run.putline]
    obtain ⟨i1, i2⟩ := ih (fun l hl => hb l (List.mem_cons_of_mem _ hl))
    exact ⟨i1, by rw [i2]⟩

theorem scanTokens_mem (raws : List Bytes) (t : Bytes) (h : t ∈ (scanTokens raws).1) :
    ∃ raw ∈ raws, t = dropCR raw ∧ raw.length < maxScanTokenSize := by
  induction raws with
  | nil => exact absurd h (List.not_mem_nil t)
  | cons r rs ih =>
    unfold scanTokens at h
    by_cases hl : maxScanTokenSize ≤ r.length
    · rw [if_pos hl] at h
      exact absurd h (List.not_mem_nil t)
    · rw [if_neg hl] at h
      rcases List.mem_cons.1 h with rfl | h
      · exact ⟨r, List.mem_cons_self _ _, rfl, by omega⟩
      · obtain ⟨raw, hm, e, hlen⟩ := ih h
        exact ⟨raw, List.mem_cons_of_mem _ hm, e, hlen⟩

/-- A token of the scanner has no newline and fewer than 65536 bytes. -/
theorem newScanner_token (f : Reader) (t : Bytes) (h : t ∈ (newScanner f).tokens) :
    10 ∉ t ∧ t.length < maxScanTokenSize := by
  obtain ⟨raw, hm, e, hlen⟩ := scanTokens_mem _ t h
  have hp : raw ∈ splitByte 10 f.data := by
    unfold rawLines at hm
    simp only [] at hm
    split_ifs at hm
    · exact List.mem_of_mem_dropLast hm
    · exact hm
  have hno := splitByte_no_sep 10 f.data raw hp
  rw [e]
  unfold dropCR
  split_ifs
  · constructor
    · exact fun hc => hno (List.mem_of_mem_dropLast hc)
    · rw [List.length_dropLast]; omega
  · exact ⟨hno, hlen⟩

theorem splitByte_fileContent (ls : List Bytes) (h : ∀ l ∈ ls, 10 ∉ l) :
    splitByte 10 (fileContent ls) = ls ++ [[]] := by
  induction ls with
  | nil => rfl
  | cons l rest ih =>
    rw [fileContent, splitByte_append 10 l _ (h l (List.mem_cons_self _ _)),
      ih (fun x hx => h x (List.mem_cons_of_mem _ hx))]
    rfl

theorem scanTokens_short (ls : List Bytes)
    (h : ∀ l ∈ ls, l.getLast? ≠ some 13 ∧ l.length < maxScanTokenSize) :
    scanTokens ls = (ls, false) := by
  induction ls with
  | nil => rfl
  | cons l rest ih =>
    obtain ⟨h1, h2⟩ := h l (List.mem_cons_self _ _)
    rw [scanTokens, if_neg (by omega), ih (fun x hx => h x (List.mem_cons_of_mem _ hx)),
      dropCR_eq_self l h1]

/-- Lines without a newline, not ending in a carriage return and shorter than
the scanner's buffer are scanned back from the bytes they are written as. -/
theorem newScanner_fileContent (ls : List Bytes)
    (h : ∀ l ∈ ls, 10 ∉ l ∧ l.getLast? ≠ some 13 ∧ l.length < maxScanTokenSize) :
    (newScanner { data := fileContent ls, err := none }).tokens = ls
    ∧ (newScanner { data := fileContent ls, err := none }).err = none := by
  have hr : rawLines (fileContent ls) = ls := by
    unfold rawLines
    simp only [splitByte_fileContent ls (fun l hl => (h l hl).1), List.getLast?_concat,
      if_true, List.dropLast_concat]
  have hs := scanTokens_short ls (fun l hl => (h l hl).2)
  unfold newScanner
  simp only [hr, hs]
  simp

theorem printable_line (l : Bytes) (h : Printable l) : 10 ∉ l ∧ l.getLast? ≠ some 13 := by
  constructor
  · intro hc
    have := h 10 hc
    omega
  · intro hc
    have := h 13 (List.mem_of_getLast?_eq_some hc)
    omega


/-- The record line of `makeHash` is printable and short. -/
theorem makeHash_line (user realm secret line : Bytes)
    (h : (makeHash user realm secret).2 = Except.ok line) :
    Printable line ∧ line.length = user.length + realm.length + 34 := by
  obtain ⟨pu, pr, _, rfl⟩ := makeHash_ok_eq user realm secret line h
  constructor
  · intro b hb
    simp only [List.mem_append, List.mem_cons, List.mem_singleton, List.not_mem_nil,
      or_false] at hb
    rcases hb with (hb | hb | hb | hb) | hb
    · exact pu b hb
    · omega
    · exact pr b hb
    · omega
    · have := hexEncode_digits _ b hb
      omega
  · simp only [List.length_append, List.length_cons, List.length_nil, hexEncode_length,
      md5_length]
    omega

/-- Claim C17, as the program has it: for a user and realm of at most 255
bytes without a colon, the user not starting with `#`, and an input none of
whose scanned lines ends in a carriage return, running
`updateTempPasswordFile` on the bytes written by a successful run, with the
same user, realm and secret input, succeeds and writes the same lines. -/
theorem rerun_idempotent (f stdin : Reader) (user realm : Bytes)
    (hlu : user.length ≤ 255) (hlr : realm.length ≤ 255)
    (hcu : 58 ∉ user) (hcr : 58 ∉ realm) (hhash : user.head? ≠ some 35)
    (hcrs : ∀ l ∈ (newScanner f).tokens, l.getLast? ≠ some 13)
    (hok : (updateTempPasswordFile f stdin user realm).err = none) :
    (updateTempPasswordFile
        { data := fileContent (updateTempPasswordFile f stdin user realm).out, err := none }
        stdin user realm).err = none
    ∧ (updateTempPasswordFile
        { data := fileContent (updateTempPasswordFile f stdin user realm).out, err := none }
        stdin user realm).out = (updateTempPasswordFile f stdin user realm).out := by
  have hok2 : (updateLoop stdin user realm (newScanner f).err false (newScanner f).tokens).err
      = none := hok
  obtain ⟨_, before, after, secret, line, h1, h2, h3, h4, h5⟩ :=
    updateLoop_ok_shape stdin user realm _ _ hok2
  have hout : (updateTempPasswordFile f stdin user realm).out = before ++ line :: after := h3
  obtain ⟨hrec, hlong⟩ := makeHash_isRecordFor user realm secret line h2 hcu hcr hhash
  obtain ⟨hpl, hlen⟩ := makeHash_line user realm secret line h2
  obtain ⟨ao, ae⟩ := addPassword_ok user realm stdin secret line h1 h2
  have hall : ∀ l ∈ before ++ line :: after,
      10 ∉ l ∧ l.getLast? ≠ some 13 ∧ l.length < maxScanTokenSize := by
    intro l hl
    rcases List.mem_append.1 hl with hl | hl
    · have hm := h5 l (List.mem_append_left _ hl)
      exact ⟨(newScanner_token f l hm).1, hcrs l hm, (newScanner_token f l hm).2⟩
    · rcases List.mem_cons.1 hl with rfl | hl
      · refine ⟨(printable_line l hpl).1, (printable_line l hpl).2, ?_⟩
        rw [hlen, maxScanTokenSize]
        omega
      · have hm := h5 l (List.mem_append_right _ hl)
        exact ⟨(newScanner_token f l hm).1, hcrs l hm, (newScanner_token f l hm).2⟩
  obtain ⟨ht, he⟩ := newScanner_fileContent _ hall
  rw [hout]
  unfold updateTempPasswordFile
  rw [ht, he]
  exact updateLoop_rerun stdin user realm before after line h4 hrec (hlong hlu hlr) ao ae

set_option maxRecDepth 100000 in
/-- Scenario B of the specification run twice. -/
theorem rerun_idempotent_witness :
    (updateTempPasswordFile
        { data := fileContent (updateTempPasswordFile
            { data := ascii "alice:myrealm:0123\n# comment\n", err := none }
            { data := ascii "new\n", err := none } (ascii "alice") (ascii "myrealm")).out,
          err := none }
        { data := ascii "new\n", err := none } (ascii "alice") (ascii "myrealm")).err = none
    ∧ (updateTempPasswordFile
        { data := fileContent (updateTempPasswordFile
            { data := ascii "alice:myrealm:0123\n# comment\n", err := none }
            { data := ascii "new\n", err := none } (ascii "alice") (ascii "myrealm")).out,
          err := none }
        { data := ascii "new\n", err := none } (ascii "alice") (ascii "myrealm")).out
      = (updateTempPasswordFile { data := ascii "alice:myrealm:0123\n# comment\n", err := none }
          { data := ascii "new\n", err := none } (ascii "alice") (ascii "myrealm")).out :=
  rerun_idempotent { data := ascii "alice:myrealm:0123\n# comment\n", err := none }
    { data := ascii "new\n", err := none } (ascii "alice") (ascii "myrealm")
    (by decide) (by decide) (by decide) (by decide) (by decide) (by decide) (by decide)

set_option maxRecDepth 100000 in
/-- Claim C17 fails as stated.  With the user `#u` the record written by the
first run starts with `#`, the second run copies it as a comment and appends
the record again.  With an input line ending in two carriage returns the first
run writes one of them, and the second run drops it. -/
theorem rerun_counterexample :
    (updateTempPasswordFile { data := [], err := none } { data := ascii "pw\n", err := none }
        (ascii "#u") (ascii "r")).err = none
    ∧ (updateTempPasswordFile { data := [], err := none } { data := ascii "pw\n", err := none }
        (ascii "#u") (ascii "r")).out = [ascii "#u:r:4f413f5748b759ae1a85591c96f3f42e"]
    ∧ (updateTempPasswordFile
        { data := fileContent (updateTempPasswordFile { data := [], err := none }
            { data := ascii "pw\n", err := none } (ascii "#u") (ascii "r")).out, err := none }
        { data := ascii "pw\n", err := none } (ascii "#u") (ascii "r")).out
      = [ascii "#u:r:4f413f5748b759ae1a85591c96f3f42e",
         ascii "#u:r:4f413f5748b759ae1a85591c96f3f42e"]
    ∧ (updateTempPasswordFile { data := ascii "x\r\r\n", err := none }
        { data := ascii "pw\n", err := none } (ascii "u") (ascii "r")).out
      = [ascii "x\r", ascii "u:r:16cf8470b801169c6eade4e217f239e9"]
    ∧ (updateTempPasswordFile
        { data := fileContent (updateTempPasswordFile { data := ascii "x\r\r\n", err := none }
            { data := ascii "pw\n", err := none } (ascii "u") (ascii "r")).out, err := none }
        { data := ascii "pw\n", err := none } (ascii "u") (ascii "r")).out
      = [ascii "x", ascii "u:r:16cf8470b801169c6eade4e217f239e9"] := by
  decide

/-! ## Validation and comparison -/

/-- The fatal exit of `makeHash` for a bad user or realm names the user when
the user is bad and else the realm. -/
theorem makeHash_bad_field (user realm password : Bytes)
    (h : HasBadChar user ∨ HasBadChar realm) :
    (makeHash user realm password).2
      = Except.error (Failure.fatal (if HasBadChar user then Field.user else Field.realm)) := by
  unfold makeHash
  by_cases hu : HasBadChar user
  · obtain ⟨c, hc⟩ := onlyPrintableAscii_error_of_bad user hu
    rw [hc, if_pos hu]
  · have hpu : onlyPrintableAscii user = Except.ok () := by
      rw [onlyPrintableAscii_ok_iff]
      by_contra hn
      exact hu ((hasBadChar_iff_not_printable user).2 hn)
    obtain ⟨c, hc⟩ := onlyPrintableAscii_error_of_bad realm (h.resolve_left hu)
    rw [hpu, hc, if_neg hu]

/-- Claim C18, as the program has it: with a character outside 0x20..0x7E in
the user or the realm `updateTempPasswordFile` never succeeds, but the check is
made in `makeHash`, after the lines are compared and the secret is read: the
run ends with the invalid-character exit when the secret is read, with the
error of the secret read when that fails, and with the length violation when a
line with a field over 255 bytes comes first. -/
theorem validation_after_comparison (f stdin : Reader) (user realm : Bytes)
    (hbad : HasBadChar user ∨ HasBadChar realm) :
    (∃ e, (updateTempPasswordFile f stdin user realm).err = some e)
    ∧ ((∀ l ∈ (newScanner f).tokens, ¬ HasLongField l) → (newScanner f).err = none →
        (∀ secret, (readLineChannelByScanner stdin).2 = Except.ok secret →
          (updateTempPasswordFile f stdin user realm).err
            = some (Failure.fatal (if HasBadChar user then Field.user else Field.realm)))
        ∧ (∀ e, (readLineChannelByScanner stdin).2 = Except.error e →
          (updateTempPasswordFile f stdin user realm).err = some e))
    ∧ ((∃ pre bad post, (newScanner f).tokens = pre ++ bad :: post
          ∧ (∀ l ∈ pre, ¬ IsRecordFor user realm l) ∧ HasLongField bad) →
        (updateTempPasswordFile f stdin user realm).err = some Failure.lengthViolation) := by
  refine ⟨?_, ?_, ?_⟩
  · have hb : BadInput user realm stdin := by
      rcases hbad with h | h
      · exact Or.inl h
      · exact Or.inr (Or.inl h)
    exact updateLoop_bad stdin user realm _ hb _
  · intro hno hs
    have herr : (updateTempPasswordFile f stdin user realm).err
        = (addPassword user realm stdin).err := by
      unfold updateTempPasswordFile
      rw [hs]
      exact updateLoop_err_eq stdin user realm _ hno
    constructor
    · intro secret h1
      rw [herr]
      exact (addPassword_hash_error user realm stdin secret _ h1
        (makeHash_bad_field user realm secret hbad)).2
    · intro e h1
      rw [herr]
      exact (addPassword_read_error user realm stdin e h1).2
  · intro h
    exact (updateLoop_lengthViolation_iff stdin user realm _ (newScanner_err_ne f) _).2 h

set_option maxRecDepth 100000 in
/-- A bell character as the user and an empty file: the fatal exit when a
secret is typed, the end-of-input error when none is. -/
theorem validation_after_comparison_witness :
    (updateTempPasswordFile { data := [], err := none } { data := ascii "pw\n", err := none }
        [7] (ascii "r")).err
      = some (Failure.fatal (if HasBadChar [7] then Field.user else Field.realm))
    ∧ (updateTempPasswordFile { data := [], err := none } { data := [], err := none }
        [7] (ascii "r")).err = some Failure.detectEOF :=
  ⟨((validation_after_comparison { data := [], err := none }
        { data := ascii "pw\n", err := none } [7] (ascii "r") (Or.inl (by decide))).2.1
      (by decide) (by decide)).1 (ascii "pw") (by decide),
   ((validation_after_comparison { data := [], err := none }
        { data := [], err := none } [7] (ascii "r") (Or.inl (by decide))).2.1
      (by decide) (by decide)).2 Failure.detectEOF (by decide)⟩

set_option maxRecDepth 100000 in
/-- Claim C18 fails as stated: with a bell character as the user the outcome
depends on the secret input (fatal exit with a secret, end-of-input error
without) and on the lines of the file (length violation for a first field of
256 bytes). -/
theorem validation_order_counterexample :
    HasBadChar [7]
    ∧ (updateTempPasswordFile { data := [], err := none } { data := ascii "pw\n", err := none }
        [7] (ascii "r")).err = some (Failure.fatal Field.user)
    ∧ (updateTempPasswordFile { data := [], err := none } { data := [], err := none }
        [7] (ascii "r")).err = some Failure.detectEOF
    ∧ (updateTempPasswordFile { data := List.replicate 256 97 ++ ascii ":r:h\n", err := none }
        { data := ascii "pw\n", err := none } [7] (ascii "r")).err
      = some Failure.lengthViolation := by
  decide

/-! ## The record that counts -/

/-- Claim C19, as the program has it: for a user and realm without a colon,
the user not starting with `#`, the output of a successful run holds the line
of `makeHash` written by this run, that line is a record for the target by
the rule of the rewrite, and no line before it is. -/
theorem new_record_first_recognised (f stdin : Reader) (user realm : Bytes)
    (hcu : 58 ∉ user) (hcr : 58 ∉ realm) (hhash : user.head? ≠ some 35)
    (hok : (updateTempPasswordFile f stdin user realm).err = none) :
    ∃ before after secret line,
      (readLineChannelByScanner stdin).2 = Except.ok secret
      ∧ (makeHash user realm secret).2 = Except.ok line
      ∧ (updateTempPasswordFile f stdin user realm).out = before ++ line :: after
      ∧ (∀ l ∈ before, ¬ IsRecordFor user realm l)
      ∧ IsRecordFor user realm line := by
  have hok2 : (updateLoop stdin user realm (newScanner f).err false (newScanner f).tokens).err
      = none := hok
  obtain ⟨_, before, after, secret, line, h1, h2, h3, h4, _⟩ :=
    updateLoop_ok_shape stdin user realm _ _ hok2
  exact ⟨before, after, secret, line, h1, h2, h3, fun l hl => (h4 l hl).1,
    (makeHash_isRecordFor user realm secret line h2 hcu hcr hhash).1⟩

set_option maxRecDepth 100000 in
/-- A file with a comment, the record of `a` in `r`, and that record again. -/
theorem new_record_first_recognised_witness :
    ∃ before after secret line,
      (readLineChannelByScanner { data := ascii "pw\n", err := none }).2 = Except.ok secret
      ∧ (makeHash (ascii "a") (ascii "r") secret).2 = Except.ok line
      ∧ (updateTempPasswordFile { data := ascii "# c\na:r:1\na:r:2\n", err := none }
          { data := ascii "pw\n", err := none } (ascii "a") (ascii "r")).out
        = before ++ line :: after
      ∧ (∀ l ∈ before, ¬ IsRecordFor (ascii "a") (ascii "r") l)
      ∧ IsRecordFor (ascii "a") (ascii "r") line :=
  new_record_first_recognised { data := ascii "# c\na:r:1\na:r:2\n", err := none }
    { data := ascii "pw\n", err := none } (ascii "a") (ascii "r")
    (by decide) (by decide) (by decide) (by decide)

set_option maxRecDepth 100000 in
/-- Claim C19 fails as stated: with the printable user `#u`, which has no
colon, the run succeeds and no line of its output is a record for the target
by the rule of the rewrite, the line just written included. -/
theorem new_record_counterexample :
    Printable (ascii "#u") ∧ 58 ∉ ascii "#u"
    ∧ (updateTempPasswordFile { data := ascii "# c\n", err := none }
        { data := ascii "pw\n", err := none } (ascii "#u") (ascii "r")).err = none
    ∧ (updateTempPasswordFile { data := ascii "# c\n", err := none }
        { data := ascii "pw\n", err := none } (ascii "#u") (ascii "r")).out
      = [ascii "# c", ascii "#u:r:4f413f5748b759ae1a85591c96f3f42e"]
    ∧ ∀ l ∈ (updateTempPasswordFile { data := ascii "# c\n", err := none }
        { data := ascii "pw\n", err := none } (ascii "#u") (ascii "r")).out,
        ¬ IsRecordFor (ascii "#u") (ascii "r") l := by
  decide

end Htdigest
